import Mathlib

/-!
Verification of the time-series forecasting engine of this repository.

The JavaScript source is shallowly embedded over exact rational arithmetic
(`ℚ`): every numeric value the engine manipulates on its ordinary control
paths is a finite IEEE double, and all of the claims under study are
structural or algebraic, so `ℚ` is the faithful idealization.  Where a claim
is specifically about JavaScript `NaN` propagation (the exponential-smoothing
fallback), a second embedding over `Option ℚ` (`none` = `NaN`) models the
guards verbatim; it lives in the `NaNWorld` section below.

Sources embedded:
* `predictionService.js` — `linearRegression`, `detectTimeInterval`,
  `generatePrediction`, `validateModelDataRequirements`;
* `predictionModels/arima.js` — `autocorrelation`, `difference`,
  `inverseDifference`, `autoregressive`, `arForecast`, `arima`, `autoArima`,
  `variance`, `solveLinearSystem`;
* `predictionModels/polynomialRegression.js` — coefficients, evaluation,
  degree-2/3/auto regression (sharing the same `solveLinearSystem`);
* `predictionModels/exponentialSmoothing.js` — single/double/triple
  smoothing, `optimizeAlpha`, `optimizeBeta`, `detectTrend`,
  `detectSeasonality`, dispatcher;
* `predictionModels/movingAverage.js` — simple/weighted/exponential
  strategies and dispatcher;
* `predictionController.js` / `localDataService.js` — the validation order
  and the upstream time sort.

Thrown `Error`s become `Except JsError`; each JS error message is one
constructor (carrying the numeric bound the message states, where it states
one).
-/

set_option autoImplicit false

namespace Szhb

/-- Error taxonomy of the forecasting engine: one constructor per distinct
JS `throw` message.  `insufficientData n` carries the minimum point count the
message states. -/
inductive JsError where
  /-- A model's minimum-data message, carrying the stated minimum. -/
  | insufficientData (minPoints : Nat)
  /-- The orchestrator's periods-must-be-positive message. -/
  | invalidPeriods
  /-- The linear-regression zero-denominator message. -/
  | degenerateRegression
  /-- The Gaussian-elimination singular-matrix message. -/
  | singularMatrix
  /-- The orchestrator's unknown-model message. -/
  | unsupportedModel (model : String)
  /-- The polynomial-regression bad-degree message. -/
  | invalidDegree
  /-- The `autoregressive` minimum-data message (needs order+1 points). -/
  | arOrder (minPoints : Nat)
  /-- The `arima` order-too-large message (needs p+d+q+5 points). -/
  | arimaOrder (p d q minPoints : Nat)
  /-- The orchestrator's wrapper around a model-thrown error. -/
  | modelFailure (model : String) (inner : JsError)
  deriving DecidableEq, Repr

/-- HistoricalPoint: one `{time, value}` entry of a series.  `time` is an
integer (4-digit year or 6-digit year·month), `value` an exact rational. -/
structure Point where
  time : Int
  value : ℚ
  deriving DecidableEq, Repr

/-!
## Linear algebra kernel

`solveLinearSystem` from `arima.js` lines 238-276 and
`polynomialRegression.js` lines 70-112 (the two copies are textually
identical).  Matrices are lists of rows; out-of-range reads use `getD`
defaults, which are never hit on the guarded call sites.
-/

/-- Pivot threshold `1e-10` from the singularity check. -/
def pivotEps : ℚ := 1 / 10 ^ 10

/-- Entry `aug[k][i]` of a row-list matrix, defaulting to 0 out of range. -/
def mNth (aug : List (List ℚ)) (k i : Nat) : ℚ :=
  (aug.getD k []).getD i 0

/-- Partial-pivot row search: JS `for (k = i+1; k < n; k++) if
(|aug[k][i]| > |aug[maxRow][i]|) maxRow = k`, first maximum kept. -/
def findMaxRowGo (aug : List (List ℚ)) (col : Nat) : List Nat → Nat → Nat
  | [], best => best
  | k :: ks, best =>
    findMaxRowGo aug col ks (if |mNth aug k col| > |mNth aug best col| then k else best)

/-- Row index with the largest absolute entry in column `i` among rows
`i..n-1`, starting from candidate `i` itself. -/
def findMaxRow (aug : List (List ℚ)) (i n : Nat) : Nat :=
  findMaxRowGo aug i (List.range' (i + 1) (n - (i + 1))) i

/-- Swap of rows `i` and `j`: JS `[aug[i], aug[maxRow]] = [aug[maxRow], aug[i]]`. -/
def swapRows (aug : List (List ℚ)) (i j : Nat) : List (List ℚ) :=
  let ri := aug.getD i []
  let rj := aug.getD j []
  (aug.set i rj).set j ri

/-- Elimination of one row below the pivot: entries at columns `≥ i` become
`row[j] - factor * pivotRow[j]` (JS inner `for (j = i; j <= n; j++)`). -/
def rowElim (i : Nat) (factor : ℚ) (prow row : List ℚ) : List ℚ :=
  List.zipWith (fun (jv : Nat × ℚ) (p : ℚ) => if i ≤ jv.1 then jv.2 - factor * p else jv.2)
    row.enum prow

/-- Elimination below pivot `i`: rows `k ≤ i` unchanged, rows `k > i` get
`factor = aug[k][i] / aug[i][i]` subtracted (JS `for (k = i+1; k < n; k++)`). -/
def elimBelow (aug : List (List ℚ)) (i : Nat) : List (List ℚ) :=
  let prow := aug.getD i []
  let pivot := prow.getD i 0
  aug.enum.map fun kr => if kr.1 ≤ i then kr.2 else rowElim i (kr.2.getD i 0 / pivot) prow kr.2

/-- Forward elimination: `fuel` counts the remaining loop iterations of JS
`for (i = 0; i < n; i++)`; each step swaps in the partial pivot, raises the
singular-matrix error when its magnitude is below `1e-10`, else eliminates. -/
def fwdElim (n : Nat) : List (List ℚ) → Nat → Nat → Except JsError (List (List ℚ))
  | aug, _, 0 => .ok aug
  | aug, i, fuel + 1 =>
    let aug1 := swapRows aug i (findMaxRow aug i n)
    let pivot := mNth aug1 i i
    if |pivot| < pivotEps then .error .singularMatrix
    else fwdElim n (elimBelow aug1 i) (i + 1) fuel

/-- Post-swap pivot trace of the elimination, continued past small pivots
(total: `ℚ` division by zero is zero).  Used to state when `fwdElim`
raises. -/
def fwdPivots (n : Nat) : List (List ℚ) → Nat → Nat → List ℚ
  | _, _, 0 => []
  | aug, i, fuel + 1 =>
    let aug1 := swapRows aug i (findMaxRow aug i n)
    let pivot := mNth aug1 i i
    pivot :: fwdPivots n (elimBelow aug1 i) (i + 1) fuel

/-- Dot product of two rational lists (truncating zip). -/
def dotQ (xs ys : List ℚ) : ℚ :=
  (List.zipWith (· * ·) xs ys).sum

/-- Back substitution, bottom row up: after `k` steps the solutions for
indices `n-k..n-1` are known; step `k+1` computes index `i = n-k-1` as
`(aug[i][n] - Σ_{j>i} aug[i][j]·x[j]) / aug[i][i]`. -/
def backSubGo (aug : List (List ℚ)) (n : Nat) : Nat → List ℚ
  | 0 => []
  | k + 1 =>
    let xs := backSubGo aug n k
    let i := n - k - 1
    let row := aug.getD i []
    let x := (row.getD n 0 - dotQ ((row.drop (i + 1)).take (n - (i + 1))) xs) / row.getD i 0
    x :: xs

/-- Gaussian elimination with partial pivoting (`solveLinearSystem` of
`arima.js` / `polynomialRegression.js`): augment, forward-eliminate (raising
on small pivots), back-substitute. -/
def solveLinearSystem (A : List (List ℚ)) (b : List ℚ) : Except JsError (List ℚ) :=
  let n := A.length
  let augmented := List.zipWith (fun row bi => row ++ [bi]) A b
  match fwdElim n augmented 0 n with
  | .error e => .error e
  | .ok reduced => .ok (backSubGo reduced n n)

/-- Post-swap pivot trace of a whole `solveLinearSystem` run. -/
def pivotTrace (A : List (List ℚ)) (b : List ℚ) : List ℚ :=
  fwdPivots A.length (List.zipWith (fun row bi => row ++ [bi]) A b) 0 A.length

theorem findMaxRowGo_ge (aug : List (List ℚ)) (col : Nat) :
    ∀ (ks : List Nat) (best : Nat),
      |mNth aug best col| ≤ |mNth aug (findMaxRowGo aug col ks best) col| ∧
      ∀ k ∈ ks, |mNth aug k col| ≤ |mNth aug (findMaxRowGo aug col ks best) col| := by
  intro ks
  induction ks with
  | nil => intro best; exact ⟨le_refl _, by simp⟩
  | cons k ks ih =>
    intro best
    simp only [findMaxRowGo]
    by_cases h : |mNth aug k col| > |mNth aug best col|
    · simp only [if_pos h]
      refine ⟨le_trans (le_of_lt h) (ih k).1, ?_⟩
      intro j hj
      rcases List.mem_cons.mp hj with rfl | hj
      · exact (ih j).1
      · exact (ih k).2 j hj
    · simp only [if_neg h]
      refine ⟨(ih best).1, ?_⟩
      intro j hj
      rcases List.mem_cons.mp hj with rfl | hj
      · exact le_trans (le_of_not_lt h) (ih best).1
      · exact (ih best).2 j hj

theorem findMaxRow_ge (aug : List (List ℚ)) (i n k : Nat) (hik : i ≤ k) (hkn : k < n) :
    |mNth aug k i| ≤ |mNth aug (findMaxRow aug i n) i| := by
  rcases eq_or_lt_of_le hik with rfl | hlt
  · exact (findMaxRowGo_ge aug i (List.range' (i + 1) (n - (i + 1))) i).1
  · refine (findMaxRowGo_ge aug i (List.range' (i + 1) (n - (i + 1))) i).2 k ?_
    have : k ∈ List.range' (i + 1) (n - (i + 1)) := by
      rw [List.mem_range'_1]
      omega
    exact this

theorem fwdElim_error_iff (n : Nat) :
    ∀ (fuel : Nat) (aug : List (List ℚ)) (i : Nat),
      fwdElim n aug i fuel = .error .singularMatrix ↔
        ∃ p ∈ fwdPivots n aug i fuel, |p| < pivotEps := by
  intro fuel
  induction fuel with
  | zero => intro aug i; simp [fwdElim, fwdPivots]
  | succ fuel ih =>
    intro aug i
    simp only [fwdElim, fwdPivots]
    by_cases h : |mNth (swapRows aug i (findMaxRow aug i n)) i i| < pivotEps
    · rw [if_pos h]
      constructor
      · intro _
        exact ⟨mNth (swapRows aug i (findMaxRow aug i n)) i i, List.mem_cons_self _ _, h⟩
      · intro _; rfl
    · rw [if_neg h]
      rw [ih]
      constructor
      · rintro ⟨p, hp, hps⟩
        exact ⟨p, List.mem_cons_of_mem _ hp, hps⟩
      · rintro ⟨p, hp, hps⟩
        rcases List.mem_cons.mp hp with rfl | hp
        · exact absurd hps h
        · exact ⟨p, hp, hps⟩

theorem fwdElim_error_only (n : Nat) :
    ∀ (fuel : Nat) (aug : List (List ℚ)) (i : Nat) (e : JsError),
      fwdElim n aug i fuel = .error e → e = .singularMatrix := by
  intro fuel
  induction fuel with
  | zero => intro aug i e h; exact absurd h (by simp [fwdElim])
  | succ fuel ih =>
    intro aug i e h
    simp only [fwdElim] at h
    by_cases hp : |mNth (swapRows aug i (findMaxRow aug i n)) i i| < pivotEps
    · rw [if_pos hp] at h
      cases h
      rfl
    · rw [if_neg hp] at h
      exact ih _ _ e h

theorem fwdElim_ok_pivots (n : Nat) :
    ∀ (fuel : Nat) (aug : List (List ℚ)) (i : Nat) (out : List (List ℚ)),
      fwdElim n aug i fuel = .ok out →
        ∀ p ∈ fwdPivots n aug i fuel, pivotEps ≤ |p| := by
  intro fuel
  induction fuel with
  | zero => intro aug i out _; simp [fwdPivots]
  | succ fuel ih =>
    intro aug i out hok p hp
    simp only [fwdElim] at hok
    by_cases h : |mNth (swapRows aug i (findMaxRow aug i n)) i i| < pivotEps
    · rw [if_pos h] at hok; exact absurd hok (by simp)
    · rw [if_neg h] at hok
      simp only [fwdPivots] at hp
      rcases List.mem_cons.mp hp with rfl | hp
      · exact le_of_not_lt h
      · exact ih _ _ out hok p hp

/-- C4. The Gaussian-elimination solver shared by polynomial regression and
the ARIMA Yule-Walker step performs partial pivoting — the row swapped in
holds the largest absolute pivot-column entry among rows `i..n-1` — and it
returns the singular-matrix error, never a solution vector, exactly when
some post-swap pivot's magnitude is below `1e-10`. -/
theorem C4_gaussian_solver :
    (∀ (aug : List (List ℚ)) (i n k : Nat), i ≤ k → k < n →
        |mNth aug k i| ≤ |mNth aug (findMaxRow aug i n) i|) ∧
    (∀ (A : List (List ℚ)) (b : List ℚ),
        solveLinearSystem A b = .error .singularMatrix ↔
          ∃ p ∈ pivotTrace A b, |p| < pivotEps) ∧
    (∀ (A : List (List ℚ)) (b : List ℚ) (x : List ℚ),
        solveLinearSystem A b = .ok x → ∀ p ∈ pivotTrace A b, pivotEps ≤ |p|) := by
  refine ⟨fun aug i n k hik hkn => findMaxRow_ge aug i n k hik hkn, ?_, ?_⟩
  · intro A b
    simp only [solveLinearSystem, pivotTrace]
    rw [← fwdElim_error_iff]
    cases h : fwdElim A.length (List.zipWith (fun row bi => row ++ [bi]) A b) 0 A.length with
    | error e =>
      have he := fwdElim_error_only A.length A.length
        (List.zipWith (fun row bi => row ++ [bi]) A b) 0 e h
      subst he
      simp [h]
    | ok out => simp [h]
  · intro A b x hok
    simp only [solveLinearSystem] at hok
    cases h : fwdElim A.length (List.zipWith (fun row bi => row ++ [bi]) A b) 0 A.length with
    | error e => rw [h] at hok; exact absurd hok (by simp)
    | ok out =>
      exact fwdElim_ok_pivots A.length A.length _ 0 out h

/-- C4 witness: concrete instances — the partial pivot dominates a concrete
column entry; the all-ones singular system raises the singular-matrix error;
the diagonal system `2x=2, 2y=4` solves with all pivots above threshold. -/
theorem C4_gaussian_solver_witness :
    |mNth [[1, 9], [3, 9]] 0 0| ≤ |mNth [[1, 9], [3, 9]] (findMaxRow [[1, 9], [3, 9]] 0 2) 0| ∧
    solveLinearSystem [[1, 1], [1, 1]] [1, 1] = .error .singularMatrix ∧
    (∀ p ∈ pivotTrace [[2, 0], [0, 2]] [2, 4], pivotEps ≤ |p|) :=
  ⟨C4_gaussian_solver.1 [[1, 9], [3, 9]] 0 2 0 (by decide) (by decide),
   (C4_gaussian_solver.2.1 [[1, 1], [1, 1]] [1, 1]).mpr (by
      norm_num [pivotTrace, fwdPivots, swapRows, findMaxRow, findMaxRowGo, mNth, elimBelow,
        rowElim, pivotEps, List.range', List.enum, List.enumFrom]),
   C4_gaussian_solver.2.2 [[2, 0], [0, 2]] [2, 4] [1, 2] (by
      norm_num [solveLinearSystem, fwdElim, swapRows, findMaxRow, findMaxRowGo, mNth, elimBelow,
        rowElim, backSubGo, dotQ, pivotEps, List.range', List.enum, List.enumFrom])⟩

/-!
## Linear regression

`linearRegression` of `predictionService.js` lines 17-43 accumulates
`sumX, sumY, sumXY, sumX2` over the zero-based index sequence, then applies
the closed-form OLS slope/intercept.  The orchestrator's linear branch
(lines 137-142) extrapolates `slope * (n + i) + intercept`.
-/

/-- Index-weighted sums `(sumX, sumY, sumXY, sumX2)` of the JS `forEach`
accumulation, by structural recursion with running index `i` (the additions
commute, so the accumulation order does not affect the value). -/
def lrSums : List ℚ → Nat → ℚ × ℚ × ℚ × ℚ
  | [], _ => (0, 0, 0, 0)
  | y :: rest, i =>
    let s := lrSums rest (i + 1)
    (s.1 + i, s.2.1 + y, s.2.2.1 + i * y, s.2.2.2 + (i : ℚ) * i)

/-- OLS fit of `predictionService.js`: requires two points, fails on a zero
denominator, else returns `(slope, intercept)`. -/
def linearRegression (data : List Point) : Except JsError (ℚ × ℚ) :=
  if data.length < 2 then .error (.insufficientData 2)
  else
    let n : ℚ := data.length
    let s := lrSums (data.map Point.value) 0
    let sumX := s.1
    let sumY := s.2.1
    let sumXY := s.2.2.1
    let sumX2 := s.2.2.2
    let denominator := n * sumX2 - sumX * sumX
    if denominator = 0 then .error .degenerateRegression
    else
      let slope := (n * sumXY - sumX * sumY) / denominator
      .ok (slope, (sumY - slope * sumX) / n)

/-- Forecast loop of the orchestrator's linear branch: value
`slope * (n + i) + intercept` for future index `n + i`, `i = 0..periods-1`
(negative `periods` yields the empty list, like the JS loop). -/
def linearForecast (data : List Point) (periods : Int) (slope intercept : ℚ) : List ℚ :=
  (List.range periods.toNat).map fun i : Nat =>
    slope * ((data.length : ℚ) + (i : ℚ)) + intercept

/-- Claim formula for the OLS slope, transcribed from the spec:
`(nΣxy − ΣxΣy) / (nΣx² − (Σx)²)` over the index sequence, written with
`Finset` sums to compare against the source's fold. -/
def lrSlopeSpec (data : List Point) : ℚ :=
  let n : ℚ := data.length
  let vals := data.map Point.value
  (n * ∑ k in Finset.range vals.length, (k : ℚ) * vals.getD k 0 -
      (∑ k in Finset.range vals.length, (k : ℚ)) * vals.sum) /
    (n * ∑ k in Finset.range vals.length, (k : ℚ) * k -
      (∑ k in Finset.range vals.length, (k : ℚ)) ^ 2)

/-- Claim formula for the OLS intercept: `(Σy − slope·Σx) / n`. -/
def lrInterceptSpec (data : List Point) : ℚ :=
  let n : ℚ := data.length
  let vals := data.map Point.value
  (vals.sum - lrSlopeSpec data * ∑ k in Finset.range vals.length, (k : ℚ)) / n

theorem lrSums_fst (l : List ℚ) : ∀ i : Nat,
    (lrSums l i).1 = ∑ k in Finset.range l.length, ((i : ℚ) + k) := by
  induction l with
  | nil => intro i; simp [lrSums]
  | cons y t ih =>
    intro i
    simp only [lrSums, ih (i + 1), List.length_cons]
    rw [Finset.sum_range_succ']
    have h1 : ∀ x ∈ Finset.range t.length,
        ((i : ℚ) + ((x + 1 : Nat) : ℚ)) = (((i + 1 : Nat) : ℚ) + x) := by
      intro x _; push_cast; ring
    rw [Finset.sum_congr rfl h1]
    push_cast
    ring

theorem lrSums_snd (l : List ℚ) : ∀ i : Nat, (lrSums l i).2.1 = l.sum := by
  induction l with
  | nil => intro i; simp [lrSums]
  | cons y t ih => intro i; simp [lrSums, ih (i + 1)]; ring

theorem lrSums_xy (l : List ℚ) : ∀ i : Nat,
    (lrSums l i).2.2.1 = ∑ k in Finset.range l.length, ((i : ℚ) + k) * l.getD k 0 := by
  induction l with
  | nil => intro i; simp [lrSums]
  | cons y t ih =>
    intro i
    simp only [lrSums, ih (i + 1), List.length_cons]
    rw [Finset.sum_range_succ']
    have h1 : ∀ x ∈ Finset.range t.length,
        ((i : ℚ) + ((x + 1 : Nat) : ℚ)) * (y :: t).getD (x + 1) 0 =
          (((i + 1 : Nat) : ℚ) + x) * t.getD x 0 := by
      intro x _
      rw [List.getD_cons_succ]
      push_cast
      ring
    rw [Finset.sum_congr rfl h1]
    rw [List.getD_cons_zero]
    push_cast
    ring

theorem lrSums_x2 (l : List ℚ) : ∀ i : Nat,
    (lrSums l i).2.2.2 = ∑ k in Finset.range l.length, ((i : ℚ) + k) * ((i : ℚ) + k) := by
  induction l with
  | nil => intro i; simp [lrSums]
  | cons y t ih =>
    intro i
    simp only [lrSums, ih (i + 1), List.length_cons]
    rw [Finset.sum_range_succ']
    have h1 : ∀ x ∈ Finset.range t.length,
        ((i : ℚ) + ((x + 1 : Nat) : ℚ)) * ((i : ℚ) + ((x + 1 : Nat) : ℚ)) =
          (((i + 1 : Nat) : ℚ) + x) * (((i + 1 : Nat) : ℚ) + x) := by
      intro x _; push_cast; ring
    rw [Finset.sum_congr rfl h1]
    push_cast
    ring

theorem sum_range_cast (n : Nat) :
    (∑ k in Finset.range n, (k : ℚ)) = n * (n - 1) / 2 := by
  induction n with
  | zero => simp
  | succ m ih =>
    rw [Finset.sum_range_succ, ih]
    push_cast
    ring

theorem sum_range_sq_cast (n : Nat) :
    (∑ k in Finset.range n, (k : ℚ) * k) = n * (n - 1) * (2 * n - 1) / 6 := by
  induction n with
  | zero => simp
  | succ m ih =>
    rw [Finset.sum_range_succ, ih]
    push_cast
    ring

theorem lr_denom_eq (n : Nat) :
    (n : ℚ) * (∑ k in Finset.range n, (k : ℚ) * k) - (∑ k in Finset.range n, (k : ℚ)) ^ 2 =
      (n : ℚ) ^ 2 * ((n : ℚ) ^ 2 - 1) / 12 := by
  rw [sum_range_cast, sum_range_sq_cast]
  ring

theorem lr_denom_ne (n : Nat) (h : 2 ≤ n) :
    (n : ℚ) * (∑ k in Finset.range n, (k : ℚ) * k) - (∑ k in Finset.range n, (k : ℚ)) ^ 2 ≠ 0 := by
  rw [lr_denom_eq]
  have hn : (2 : ℚ) ≤ (n : ℚ) := by exact_mod_cast h
  have h1 : (0 : ℚ) < (n : ℚ) ^ 2 := by nlinarith
  have h2 : (0 : ℚ) < (n : ℚ) ^ 2 - 1 := by nlinarith
  positivity

/-- C3. The linear model fits `slope = (nΣxy − ΣxΣy)/(nΣx² − (Σx)²)` and
`intercept = (Σy − slope·Σx)/n` over the zero-based index sequence, predicts
`slope·(n+i)+intercept` for the i-th future period, yields `[4, 5]` for the
3-point series `1, 2, 3` with `periods = 2`, and fails on fewer than 2
points or on an exactly-zero denominator. -/
theorem C3_linear_model :
    (∀ data : List Point, data.length < 2 →
        linearRegression data = .error (.insufficientData 2)) ∧
    (∀ data : List Point,
        (data.length : ℚ) * (∑ k in Finset.range data.length, (k : ℚ) * k) -
            (∑ k in Finset.range data.length, (k : ℚ)) ^ 2 = 0 →
          ∃ e, linearRegression data = .error e) ∧
    (∀ data : List Point, 2 ≤ data.length →
        linearRegression data = .ok (lrSlopeSpec data, lrInterceptSpec data)) ∧
    (∀ (data : List Point) (periods : Int) (slope intercept : ℚ) (i : Nat),
        i < periods.toNat →
          (linearForecast data periods slope intercept).getD i 0 =
            slope * ((data.length : ℚ) + i) + intercept) ∧
    linearRegression [⟨0, 1⟩, ⟨1, 2⟩, ⟨2, 3⟩] = .ok (1, 1) ∧
    linearForecast [⟨0, 1⟩, ⟨1, 2⟩, ⟨2, 3⟩] 2 1 1 = [4, 5] := by
  refine ⟨?_, ?_, ?_, ?_, ?_, ?_⟩
  · intro data h
    simp [linearRegression, h]
  · intro data h
    by_cases hl : data.length < 2
    · exact ⟨.insufficientData 2, by simp [linearRegression, hl]⟩
    · exact absurd h (lr_denom_ne data.length (by omega))
  · intro data h
    have hl : ¬ data.length < 2 := by omega
    have hx := lrSums_fst (data.map Point.value) 0
    have hy := lrSums_snd (data.map Point.value) 0
    have hxy := lrSums_xy (data.map Point.value) 0
    have hx2 := lrSums_x2 (data.map Point.value) 0
    simp only [Nat.cast_zero, zero_add, List.length_map] at hx hxy hx2
    have hden : ((data.length : ℚ)) *
          (∑ k in Finset.range data.length, (k : ℚ) * k) -
          (∑ k in Finset.range data.length, (k : ℚ)) *
            (∑ k in Finset.range data.length, (k : ℚ)) ≠ 0 := by
      have := lr_denom_ne data.length h
      rw [pow_two] at this
      exact this
    simp only [linearRegression, if_neg hl, hx, hy, hxy, hx2]
    rw [if_neg hden]
    simp only [lrSlopeSpec, lrInterceptSpec, List.length_map, pow_two]
  · intro data periods slope intercept i hi
    simp only [linearForecast, List.getD_eq_getElem?_getD]
    rw [List.getElem?_map]
    rw [List.getElem?_range hi]
    rfl
  · norm_num [linearRegression, lrSums]
  · norm_num [linearForecast, List.range_succ, show (2 : Int).toNat = 2 from rfl]

/-- C3 witness: the empty series errors; the 3-point series `1, 2, 3` fits
the spec formulas; the forecast entry for a concrete 1-point fit evaluates to
`slope·(n+i)+intercept`. -/
theorem C3_linear_model_witness :
    linearRegression ([] : List Point) = .error (.insufficientData 2) ∧
    (∃ e, linearRegression ([] : List Point) = .error e) ∧
    linearRegression [⟨0, 1⟩, ⟨1, 2⟩, ⟨2, 3⟩] =
      .ok (lrSlopeSpec [⟨0, 1⟩, ⟨1, 2⟩, ⟨2, 3⟩], lrInterceptSpec [⟨0, 1⟩, ⟨1, 2⟩, ⟨2, 3⟩]) ∧
    (linearForecast [⟨0, 1⟩] 3 2 5).getD 0 0 =
      2 * ((([⟨0, 1⟩] : List Point).length : ℚ) + ((0 : Nat) : ℚ)) + 5 :=
  ⟨C3_linear_model.1 [] (by decide),
   C3_linear_model.2.1 [] (by simp),
   C3_linear_model.2.2.1 [⟨0, 1⟩, ⟨1, 2⟩, ⟨2, 3⟩] (by decide),
   C3_linear_model.2.2.2.1 [⟨0, 1⟩] 3 2 5 0 (by decide)⟩

/-!
## Simplified ARIMA

From `predictionModels/arima.js`: autocorrelation, differencing and its
inverse, Yule-Walker AR estimation through `solveLinearSystem`, recursive AR
forecasting, the `arima` entry point with its two data checks, and the
`autoArima` parameter heuristic.  JS loop accumulations are rendered as
`Finset.range` sums / `List.range` maps over the same index ranges.
-/

/-- Sample autocorrelation at `lag`: 0 when `lag ≥ n` or the centered sum of
squares is zero, else the lag-covariance over the variance sum. -/
def autocorrelation (data : List ℚ) (lag : Nat) : ℚ :=
  let n := data.length
  if n ≤ lag then 0
  else
    let mean := data.sum / n
    let numerator :=
      ∑ i in Finset.range (n - lag), (data.getD i 0 - mean) * (data.getD (i + lag) 0 - mean)
    let denominator := ∑ i in Finset.range n, (data.getD i 0 - mean) ^ 2
    if denominator = 0 then 0 else numerator / denominator

/-- Differencing: order 0 copies; otherwise one pass of
`diffed[j] = data[j + order] - data[j]` followed by recursion at `order - 1`
(exactly the JS recursion shape). -/
def difference : List ℚ → Nat → List ℚ
  | data, 0 => data
  | data, order + 1 =>
    let diffed := (List.range (data.length - (order + 1))).map fun j =>
      data.getD (j + (order + 1)) 0 - data.getD j 0
    if order = 0 then diffed else difference diffed order

/-- Accumulator loop of `inverseDifference`: each differenced value is added
onto the entry `order` places back, and appended. -/
def invDiffGo (order : Nat) : List ℚ → List ℚ → List ℚ
  | acc, [] => acc
  | acc, x :: rest => invDiffGo order (acc ++ [acc.getD (acc.length - order) 0 + x]) rest

/-- Inverse differencing: seed with `originalData`, accumulate, then slice
off the seed (`result.slice(originalData.length)`). -/
def inverseDifference (originalData diffedData : List ℚ) (order : Nat) : List ℚ :=
  (invDiffGo order originalData diffedData).drop originalData.length

/-- Yule-Walker AR(`order`) estimation: ACF vector, Toeplitz matrix
`R[i][j] = acf[|i-j|]`, right side `acf[1..order]`, solved by the shared
Gaussian kernel. -/
def autoregressive (data : List ℚ) (order : Nat) : Except JsError (List ℚ) :=
  if data.length < order + 1 then .error (.arOrder (order + 1))
  else
    let acf := (List.range (order + 1)).map fun i => autocorrelation data i
    let R := (List.range order).map fun i =>
      (List.range order).map fun j => acf.getD ((i : Int) - (j : Int)).natAbs 0
    let r := (acf.drop 1).take order
    solveLinearSystem R r

/-- Recursive AR forecasting: each forecast is the `phi`-weighted sum of the
last `order` history entries and is appended to the history. -/
def arForecastGo (phi : List ℚ) : Nat → List ℚ → List ℚ
  | 0, _ => []
  | k + 1, history =>
    let order := phi.length
    let forecast :=
      ∑ j in Finset.range order, phi.getD j 0 * history.getD (history.length - order + j) 0
    forecast :: arForecastGo phi k (history ++ [forecast])

/-- AR forecast entry point (`arForecast` of `arima.js`); a nonpositive
horizon runs the JS loop zero times. -/
def arForecast (data phi : List ℚ) (periods : Int) : List ℚ :=
  arForecastGo phi periods.toNat data

/-- ARIMA order triple.  JS callers pass a plain object whose absent fields
are `undefined`; both `undefined` and `0` are falsy under the `||` defaults
inside `arima`, so an absent field is represented as `0`. -/
structure ArimaOrder where
  p : Nat
  d : Nat
  q : Nat
  deriving DecidableEq, Repr

/-- JS `v || dflt` on a number that is `0` when absent. -/
def jsOrNat0 (v dflt : Nat) : Nat :=
  if v = 0 then dflt else v

/-- Population variance (`variance` of `arima.js`). -/
def variance (data : List ℚ) : ℚ :=
  let mean := data.sum / data.length
  (data.map fun v => (v - mean) ^ 2).sum / data.length

/-- Simplified ARIMA: the 20-point check, the `p+d+q+5` order check, then
difference → Yule-Walker AR fit → recursive forecast → inverse difference. -/
def arima (data : List Point) (periods : Int) (params : ArimaOrder) : Except JsError (List ℚ) :=
  if data.length < 20 then .error (.insufficientData 20)
  else
    let values := data.map Point.value
    let n := values.length
    let p := jsOrNat0 params.p 2
    let d := jsOrNat0 params.d 1
    let q := jsOrNat0 params.q 1
    if n < p + d + q + 5 then .error (.arimaOrder p d q (p + d + q + 5))
    else
      let diffedValues := difference values d
      let originalStart := values.take d
      match autoregressive diffedValues p with
      | .error e => .error e
      | .ok phi =>
        let diffedPredictions := arForecast diffedValues phi periods
        .ok (inverseDifference originalStart diffedPredictions d)

/-- Heuristic parameter selection (`autoArima`): `d = 1` when first
differencing shrinks the variance below 80% (and `n ≥ 15`),
`p = min(2, ⌊n/10⌋)`, `q = min(1, ⌊n/15⌋)`. -/
def autoArima (data : List Point) : ArimaOrder :=
  let values := data.map Point.value
  let n := values.length
  let firstDiff := difference values 1
  let originalVar := variance values
  let diffVar := variance firstDiff
  let d := if diffVar < originalVar * 0.8 ∧ 15 ≤ n then 1 else 0
  { p := min 2 (n / 10), d := d, q := min 1 (n / 15) }

/-- Minimum-data table of `predictionService.js` (`validateModelDataRequirements`),
with the JS default of 2 for unknown model names. -/
def validateModelDataRequirements (model : String) (dataLength : Nat) : Bool :=
  let minRequired : Nat :=
    if model = "linear" then 2
    else if model = "exponential" then 3
    else if model = "movingAverage" then 2
    else if model = "polynomial" then 3
    else if model = "arima" then 20
    else 2
  decide (minRequired ≤ dataLength)

/-- JS truthiness of an optional integer order parameter: `undefined` and
`0` are falsy. -/
def jsTruthyNat : Option Nat → Bool
  | some (Nat.succ _) => true
  | _ => false

/-- JS `v || dflt` on an optional integer: `undefined` and `0` fall to the
default. -/
def jsOrNatOpt (o : Option Nat) (dflt : Nat) : Nat :=
  match o with
  | some (Nat.succ k) => Nat.succ k
  | _ => dflt

/-- Order selection of the orchestrator's ARIMA branch
(`predictionService.js` lines 172-174): explicit parameters with `|| 2/1/1`
defaults when any of `p, d, q` is truthy, else `autoArima`. -/
def chooseArimaOrder (pp dp qp : Option Nat) (data : List Point) : ArimaOrder :=
  if jsTruthyNat pp || jsTruthyNat dp || jsTruthyNat qp then
    { p := jsOrNatOpt pp 2, d := jsOrNatOpt dp 1, q := jsOrNatOpt qp 1 }
  else autoArima data

theorem getD_append_length (pre : List ℚ) (x : ℚ) :
    (pre ++ [x]).getD pre.length 0 = x := by
  induction pre with
  | nil => rfl
  | cons a t ih => simp [ih]

theorem difference_one_cons (x y : ℚ) (t : List ℚ) :
    difference (x :: y :: t) 1 = (y - x) :: difference (y :: t) 1 := by
  simp only [difference, List.length_cons, Nat.add_sub_cancel,
    List.range_succ_eq_map, List.map_cons, List.map_map]
  simp [Function.comp, List.getD_cons_succ, List.getD_cons_zero]

theorem invDiff_roundtrip_go :
    ∀ (rest pre : List ℚ) (x : ℚ),
      invDiffGo 1 (pre ++ [x]) (difference (x :: rest) 1) = (pre ++ [x]) ++ rest := by
  intro rest
  induction rest with
  | nil =>
    intro pre x
    simp [difference, invDiffGo]
  | cons y t ih =>
    intro pre x
    rw [difference_one_cons]
    simp only [invDiffGo]
    have hlen : (pre ++ [x]).length - 1 = pre.length := by simp
    rw [hlen, getD_append_length]
    have hxy : x + (y - x) = y := by ring
    rw [hxy]
    rw [ih (pre ++ [x]) y]
    simp

/-- C6. First-order differencing followed by inverse-differencing seeded
with the first original value reconstructs the last `n-1` elements of the
series exactly, for every series of length at least 2 (exact rational
arithmetic). -/
theorem C6_difference_roundtrip :
    ∀ xs : List ℚ, 2 ≤ xs.length →
      inverseDifference (xs.take 1) (difference xs 1) 1 = xs.drop 1 := by
  intro xs h
  cases xs with
  | nil => simp at h
  | cons x rest =>
    show inverseDifference [x] (difference (x :: rest) 1) 1 = rest
    unfold inverseDifference
    have hgo := invDiff_roundtrip_go rest [] x
    simp only [List.nil_append] at hgo
    rw [hgo]
    rfl

/-- C6 witness: the 3-point series `[1, 3, 6]` differences to `[2, 3]` and
reconstructs `[3, 6]`. -/
theorem C6_difference_roundtrip_witness :
    inverseDifference (([1, 3, 6] : List ℚ).take 1) (difference [1, 3, 6] 1) 1 =
      ([1, 3, 6] : List ℚ).drop 1 :=
  C6_difference_roundtrip [1, 3, 6] (by decide)

/-- C8. The ARIMA model rejects fewer than 20 points with the error stating
the 20-point minimum, rejects `n < p+d+q+5` for the (defaulted) chosen order
with the error stating that bound — both checks sit before any forecasting
computation in the function body — and the dispatch-level minimum-data table
requires 20 points for `arima`. -/
theorem C8_arima_minimum_data :
    (∀ (data : List Point) (periods : Int) (params : ArimaOrder),
        data.length < 20 → arima data periods params = .error (.insufficientData 20)) ∧
    (∀ (data : List Point) (periods : Int) (params : ArimaOrder),
        20 ≤ data.length →
        data.length < jsOrNat0 params.p 2 + jsOrNat0 params.d 1 + jsOrNat0 params.q 1 + 5 →
          arima data periods params = .error (.arimaOrder (jsOrNat0 params.p 2)
            (jsOrNat0 params.d 1) (jsOrNat0 params.q 1)
            (jsOrNat0 params.p 2 + jsOrNat0 params.d 1 + jsOrNat0 params.q 1 + 5))) ∧
    (∀ len : Nat, validateModelDataRequirements "arima" len = true ↔ 20 ≤ len) := by
  refine ⟨?_, ?_, ?_⟩
  · intro data periods params h
    simp [arima, h]
  · intro data periods params h1 h2
    have hl : ¬ data.length < 20 := by omega
    simp only [arima, if_neg hl, List.length_map]
    rw [if_pos h2]
  · intro len
    simp [validateModelDataRequirements]

/-- C8 witness: 15 points fail with the 20-point minimum; 20 points with an
explicit order `(20,1,1)` fail the `p+d+q+5` bound; the table rejects 15
points for `arima`. -/
theorem C8_arima_minimum_data_witness :
    arima (List.replicate 15 ⟨2000, 5⟩) 3 ⟨2, 1, 1⟩ = .error (.insufficientData 20) ∧
    arima (List.replicate 20 ⟨2000, 5⟩) 3 ⟨20, 1, 1⟩ = .error (.arimaOrder 20 1 1 27) ∧
    validateModelDataRequirements "arima" 15 = false :=
  ⟨C8_arima_minimum_data.1 (List.replicate 15 ⟨2000, 5⟩) 3 ⟨2, 1, 1⟩ (by simp),
   by
     have h := C8_arima_minimum_data.2.1 (List.replicate 20 ⟨2000, 5⟩) 3 ⟨20, 1, 1⟩
       (by simp) (by simp [jsOrNat0])
     simpa [jsOrNat0] using h,
   by
     have h := C8_arima_minimum_data.2.2 15
     cases hv : validateModelDataRequirements "arima" 15
     · rfl
     · exact absurd (h.mp hv) (by omega)⟩

/-- C10. A supplied ARIMA order component of 0 is falsy under the JS `||`
defaults: with any other component truthy, `p=0 → 2`, `d=0 → 1`, `q=0 → 1`;
with all of `p, d, q` 0/unset the orchestrator calls `autoArima`; and the
order the `arima` function itself uses is at least 1 in every component, so
a zero AR order or a no-differencing run cannot be requested. -/
theorem C10_arima_zero_params :
    (∀ (dp qp : Option Nat) (data : List Point), (jsTruthyNat dp || jsTruthyNat qp) = true →
        (chooseArimaOrder (some 0) dp qp data).p = 2) ∧
    (∀ (pp qp : Option Nat) (data : List Point), (jsTruthyNat pp || jsTruthyNat qp) = true →
        (chooseArimaOrder pp (some 0) qp data).d = 1) ∧
    (∀ (pp dp : Option Nat) (data : List Point), (jsTruthyNat pp || jsTruthyNat dp) = true →
        (chooseArimaOrder pp dp (some 0) data).q = 1) ∧
    (∀ (pp dp qp : Option Nat) (data : List Point),
        jsTruthyNat pp = false → jsTruthyNat dp = false → jsTruthyNat qp = false →
          chooseArimaOrder pp dp qp data = autoArima data) ∧
    (∀ params : ArimaOrder,
        1 ≤ jsOrNat0 params.p 2 ∧ 1 ≤ jsOrNat0 params.d 1 ∧ 1 ≤ jsOrNat0 params.q 1) := by
  refine ⟨?_, ?_, ?_, ?_, ?_⟩
  · intro dp qp data h
    unfold chooseArimaOrder
    rw [show jsTruthyNat (some 0) = false from rfl, Bool.false_or, h]
    rfl
  · intro pp qp data h
    unfold chooseArimaOrder
    rw [show jsTruthyNat (some 0) = false from rfl, Bool.or_false, h]
    rfl
  · intro pp dp data h
    unfold chooseArimaOrder
    rw [show jsTruthyNat (some 0) = false from rfl, Bool.or_false, h]
    rfl
  · intro pp dp qp data h1 h2 h3
    unfold chooseArimaOrder
    rw [h1, h2, h3]
    rfl
  · intro params
    refine ⟨?_, ?_, ?_⟩ <;> (unfold jsOrNat0; split <;> omega)

/-- C10 witness: `(p,d,q) = (0, 2, 0)` keeps `d = 2` but replaces `p` with 2
and `q` with 1; all-zero parameters route to `autoArima`; a zero order
passed to `arima` itself is replaced by the `(2,1,1)` defaults. -/
theorem C10_arima_zero_params_witness :
    (chooseArimaOrder (some 0) (some 2) none []).p = 2 ∧
    (chooseArimaOrder (some 2) (some 0) none []).d = 1 ∧
    (chooseArimaOrder (some 2) none (some 0) []).q = 1 ∧
    chooseArimaOrder (some 0) (some 0) none [] = autoArima [] ∧
    (1 ≤ jsOrNat0 0 2 ∧ 1 ≤ jsOrNat0 0 1 ∧ 1 ≤ jsOrNat0 0 1) :=
  ⟨C10_arima_zero_params.1 (some 2) none [] (by decide),
   C10_arima_zero_params.2.1 (some 2) none [] (by decide),
   C10_arima_zero_params.2.2.1 (some 2) none [] (by decide),
   C10_arima_zero_params.2.2.2.1 (some 0) (some 0) none [] (by decide) (by decide) (by decide),
   C10_arima_zero_params.2.2.2.2 ⟨0, 0, 0⟩⟩

/-!
## Moving average family

From `predictionModels/movingAverage.js`: simple / weighted / exponential
strategies with trend extrapolation, and the dispatcher (`"auto"` resolves
to `"simple"`).  Each strategy's post-validation body is a named
`*Forecast` core over the extracted value list, so its algebra can be
stated separately from the length check.
-/

/-- Effective window size: JS computes `max(2, ⌊n/3⌋)` when the option is
`null` or below 2, then caps at `n - 1` when `windowSize ≥ n`. -/
def effectiveWindow (windowSize : Option Int) (n : Nat) : Nat :=
  let w1 : Nat :=
    match windowSize with
    | none => max 2 (n / 3)
    | some w => if w < 2 then max 2 (n / 3) else w.toNat
  if n ≤ w1 then n - 1 else w1

/-- Body of `simpleMovingAverage`: mean of the last window of size `w`,
trend from the previous window when two windows fit, forecast
`avg + trend·(i+1)` for `i = 0..k-1`. -/
def smaForecast (values : List ℚ) (w k : Nat) : List ℚ :=
  let n := values.length
  let lastWindow := values.drop (n - w)
  let avg := lastWindow.sum / (w : ℚ)
  let trend : ℚ :=
    if w * 2 ≤ n then
      (avg - ((values.drop (n - w * 2)).take w).sum / (w : ℚ)) / (w : ℚ)
    else 0
  (List.range k).map fun i : Nat => avg + trend * ((i : ℚ) + 1)

/-- Simple moving average (`simpleMovingAverage` of `movingAverage.js`). -/
def simpleMovingAverage (data : List Point) (periods : Int) (windowSize : Option Int) :
    Except JsError (List ℚ) :=
  if data.length < 2 then .error (.insufficientData 2)
  else
    .ok (smaForecast (data.map Point.value)
      (effectiveWindow windowSize (data.map Point.value).length) periods.toNat)

/-- Body of `weightedMovingAverage`: linearly increasing weights `1..w`
normalized by `w(w+1)/2`, applied to the last window, with the same
trend-extrapolation shape. -/
def wmaForecast (values : List ℚ) (w k : Nat) : List ℚ :=
  let n := values.length
  let weightSum : ℚ := ((w : ℚ) * ((w : ℚ) + 1)) / 2
  let weights := (List.range' 1 w).map fun i : Nat => (i : ℚ) / weightSum
  let lastWindow := values.drop (n - w)
  let weightedSum := (List.zipWith (· * ·) lastWindow weights).sum
  let trend : ℚ :=
    if w * 2 ≤ n then
      (weightedSum - (List.zipWith (· * ·) ((values.drop (n - w * 2)).take w) weights).sum) /
        (w : ℚ)
    else 0
  (List.range k).map fun i : Nat => weightedSum + trend * ((i : ℚ) + 1)

/-- Weighted moving average (`weightedMovingAverage` of `movingAverage.js`). -/
def weightedMovingAverage (data : List Point) (periods : Int) (windowSize : Option Int) :
    Except JsError (List ℚ) :=
  if data.length < 2 then .error (.insufficientData 2)
  else
    .ok (wmaForecast (data.map Point.value)
      (effectiveWindow windowSize (data.map Point.value).length) periods.toNat)

/-- EMA recurrence tail: `ema[i] = α·value[i] + (1-α)·ema[i-1]`. -/
def emaGo (a : ℚ) : ℚ → List ℚ → List ℚ
  | _, [] => []
  | prev, vv :: rest =>
    let e := a * vv + (1 - a) * prev
    e :: emaGo a e rest

/-- EMA list seeded with the first value. -/
def emaList (a : ℚ) : List ℚ → List ℚ
  | [] => []
  | vv :: rest => vv :: emaGo a vv rest

/-- Body of `exponentialMovingAverage`: EMA recurrence, trend
`(ema[-1] - ema[-3]) / 2` when `n ≥ 3`, forecast `lastEma + trend·(i+1)`. -/
def emaForecast (values : List ℚ) (a : ℚ) (k : Nat) : List ℚ :=
  let n := values.length
  let ema := emaList a values
  let trend : ℚ :=
    if 3 ≤ n then (ema.getD (ema.length - 1) 0 - ema.getD (ema.length - 3) 0) / 2 else 0
  let lastEma := ema.getD (ema.length - 1) 0
  (List.range k).map fun i : Nat => lastEma + trend * ((i : ℚ) + 1)

/-- Exponential moving average (`exponentialMovingAverage` of
`movingAverage.js`): `α` defaults to 0.3 and is clamped into `(0,1)`. -/
def exponentialMovingAverage (data : List Point) (periods : Int) (alpha : Option ℚ) :
    Except JsError (List ℚ) :=
  if data.length < 2 then .error (.insufficientData 2)
  else
    let a0 := match alpha with | none => (0.3 : ℚ) | some a => a
    let a := if a0 ≤ 0 ∨ 1 ≤ a0 then (0.3 : ℚ) else a0
    .ok (emaForecast (data.map Point.value) a periods.toNat)

/-- Dispatcher (`movingAverage`): `"auto"` resolves to `"simple"`; unknown
types fall to the simple strategy (the JS `default` branch). -/
def movingAverage (data : List Point) (periods : Int) (type : String)
    (windowSize : Option Int) (alpha : Option ℚ) : Except JsError (List ℚ) :=
  if data.length < 2 then .error (.insufficientData 2)
  else
    let t := if type = "auto" then "simple" else type
    if t = "simple" then simpleMovingAverage data periods windowSize
    else if t = "weighted" then weightedMovingAverage data periods windowSize
    else if t = "exponential" then exponentialMovingAverage data periods alpha
    else simpleMovingAverage data periods windowSize

theorem sum_eq_of_all_eq (l : List ℚ) (v : ℚ) (h : ∀ x ∈ l, x = v) :
    l.sum = l.length * v := by
  induction l with
  | nil => simp
  | cons a t ih =>
    have ha := h a (List.mem_cons_self a t)
    have ht := fun x hx => h x (List.mem_cons_of_mem a hx)
    rw [List.sum_cons, ha, ih ht, List.length_cons]
    push_cast
    ring

theorem getD_eq_of_all_eq (l : List ℚ) (v : ℚ) (h : ∀ x ∈ l, x = v) (i : Nat)
    (hi : i < l.length) : l.getD i 0 = v := by
  rw [List.getD_eq_getElem?_getD, List.getElem?_eq_getElem hi]
  exact h _ (List.getElem_mem hi)

theorem zipWith_mul_const_sum (v : ℚ) :
    ∀ (l ws : List ℚ), (∀ x ∈ l, x = v) → ws.length ≤ l.length →
      (List.zipWith (· * ·) l ws).sum = v * ws.sum := by
  intro l
  induction l with
  | nil =>
    intro ws _ hw
    rw [List.length_nil, Nat.le_zero] at hw
    simp [List.length_eq_zero.mp hw]
  | cons a t ih =>
    intro ws h hw
    cases ws with
    | nil => simp
    | cons b bs =>
      have ha := h a (List.mem_cons_self a t)
      have ht := fun x hx => h x (List.mem_cons_of_mem a hx)
      simp only [List.zipWith_cons_cons, List.sum_cons, List.length_cons] at hw ⊢
      rw [ha, ih bs ht (by omega)]
      ring

theorem sum_map_div (c : ℚ) : ∀ l : List Nat,
    ((l.map fun i : Nat => (i : ℚ) / c)).sum = ((l.map fun i : Nat => (i : ℚ)).sum) / c := by
  intro l
  induction l with
  | nil => simp
  | cons a t ih => simp [ih, add_div]

theorem sum_range'_cast : ∀ (w s : Nat),
    ((List.range' s w).map fun i : Nat => (i : ℚ)).sum =
      (w : ℚ) * s + (w : ℚ) * ((w : ℚ) - 1) / 2 := by
  intro w
  induction w with
  | zero => intro s; simp
  | succ m ih =>
    intro s
    rw [List.range'_succ]
    simp only [List.map_cons, List.sum_cons, ih (s + 1)]
    push_cast
    ring

theorem weights_sum_one (w : Nat) (hw : 1 ≤ w) :
    ((List.range' 1 w).map fun i : Nat => (i : ℚ) / (((w : ℚ) * ((w : ℚ) + 1)) / 2)).sum = 1 := by
  rw [sum_map_div, sum_range'_cast]
  have hwq : (1 : ℚ) ≤ (w : ℚ) := by exact_mod_cast hw
  have hne : ((w : ℚ) * ((w : ℚ) + 1)) / 2 ≠ 0 := by positivity
  field_simp
  ring

theorem emaGo_all_eq (a v : ℚ) : ∀ rest : List ℚ, (∀ x ∈ rest, x = v) →
    ∀ y ∈ emaGo a v rest, y = v := by
  intro rest
  induction rest with
  | nil => intro _ y hy; simp [emaGo] at hy
  | cons b bs ih =>
    intro h y hy
    have hb := h b (List.mem_cons_self b bs)
    subst hb
    have he : a * b + (1 - a) * b = b := by ring
    simp only [emaGo, he] at hy
    rcases List.mem_cons.mp hy with rfl | hy
    · rfl
    · exact ih (fun x hx => h x (List.mem_cons_of_mem b hx)) y hy

theorem emaGo_length (a : ℚ) : ∀ (rest : List ℚ) (prev : ℚ),
    (emaGo a prev rest).length = rest.length := by
  intro rest
  induction rest with
  | nil => intro prev; rfl
  | cons b bs ih => intro prev; simp [emaGo, ih]

theorem emaList_all_eq (a v : ℚ) (values : List ℚ) (h : ∀ x ∈ values, x = v) :
    ∀ y ∈ emaList a values, y = v := by
  cases values with
  | nil => intro y hy; simp [emaList] at hy
  | cons b bs =>
    intro y hy
    have hb := h b (List.mem_cons_self b bs)
    subst hb
    simp only [emaList] at hy
    rcases List.mem_cons.mp hy with rfl | hy
    · rfl
    · exact emaGo_all_eq a b bs (fun x hx => h x (List.mem_cons_of_mem b hx)) y hy

theorem emaList_length (a : ℚ) (values : List ℚ) :
    (emaList a values).length = values.length := by
  cases values with
  | nil => rfl
  | cons b bs => simp [emaList, emaGo_length]

theorem smaForecast_const (values : List ℚ) (v : ℚ) (w k : Nat) (hw : 1 ≤ w)
    (hwn : w ≤ values.length) (hvv : ∀ x ∈ values, x = v) :
    smaForecast values w k = List.replicate k v := by
  have hwq : ((w : ℚ)) ≠ 0 := by
    have : (0 : ℚ) < (w : ℚ) := by exact_mod_cast hw
    exact ne_of_gt this
  have hlastlen : (values.drop (values.length - w)).length = w := by
    simp
    omega
  have hlastavg : (values.drop (values.length - w)).sum / (w : ℚ) = v := by
    rw [sum_eq_of_all_eq _ v (fun x hx => hvv x (List.mem_of_mem_drop hx)), hlastlen]
    field_simp
  simp only [smaForecast]
  by_cases h2 : w * 2 ≤ values.length
  · have hprevlen : ((values.drop (values.length - w * 2)).take w).length = w := by
      simp
      omega
    have hprevavg : ((values.drop (values.length - w * 2)).take w).sum / (w : ℚ) = v := by
      rw [sum_eq_of_all_eq _ v
        (fun x hx => hvv x (List.mem_of_mem_drop (List.mem_of_mem_take hx))), hprevlen]
      field_simp
    simp only [if_pos h2, hlastavg, hprevavg, sub_self, zero_div, zero_mul, add_zero]
    simp [List.map_const']
  · simp only [if_neg h2, hlastavg, zero_mul, add_zero]
    simp [List.map_const']

theorem wmaForecast_const (values : List ℚ) (v : ℚ) (w k : Nat) (hw : 1 ≤ w)
    (hwn : w ≤ values.length) (hvv : ∀ x ∈ values, x = v) :
    wmaForecast values w k = List.replicate k v := by
  have hweightslen : ((List.range' 1 w).map fun i : Nat =>
      (i : ℚ) / (((w : ℚ) * ((w : ℚ) + 1)) / 2)).length = w := by simp
  have hlastlen : (values.drop (values.length - w)).length = w := by
    simp
    omega
  have hwsum : (List.zipWith (· * ·) (values.drop (values.length - w))
      ((List.range' 1 w).map fun i : Nat =>
        (i : ℚ) / (((w : ℚ) * ((w : ℚ) + 1)) / 2))).sum = v := by
    rw [zipWith_mul_const_sum v _ _ (fun x hx => hvv x (List.mem_of_mem_drop hx))
      (by rw [hweightslen, hlastlen])]
    rw [weights_sum_one w hw]
    ring
  simp only [wmaForecast]
  by_cases h2 : w * 2 ≤ values.length
  · have hprevlen : ((values.drop (values.length - w * 2)).take w).length = w := by
      simp
      omega
    have hpsum : (List.zipWith (· * ·) ((values.drop (values.length - w * 2)).take w)
        ((List.range' 1 w).map fun i : Nat =>
          (i : ℚ) / (((w : ℚ) * ((w : ℚ) + 1)) / 2))).sum = v := by
      rw [zipWith_mul_const_sum v _ _
        (fun x hx => hvv x (List.mem_of_mem_drop (List.mem_of_mem_take hx)))
        (by rw [hweightslen, hprevlen])]
      rw [weights_sum_one w hw]
      ring
    simp only [if_pos h2, hwsum, hpsum, sub_self, zero_div, zero_mul, add_zero]
    simp [List.map_const']
  · simp only [if_neg h2, hwsum, zero_mul, add_zero]
    simp [List.map_const']

theorem emaForecast_const (values : List ℚ) (v : ℚ) (a : ℚ) (k : Nat)
    (hn : 1 ≤ values.length) (hvv : ∀ x ∈ values, x = v) :
    emaForecast values a k = List.replicate k v := by
  have hemalen : (emaList a values).length = values.length := emaList_length a values
  have hgetD : ∀ j, j < values.length → (emaList a values).getD j 0 = v := by
    intro j hj
    exact getD_eq_of_all_eq _ v (emaList_all_eq a v values hvv) j (by omega)
  have hlast : (emaList a values).getD ((emaList a values).length - 1) 0 = v := by
    rw [hemalen]
    exact hgetD (values.length - 1) (by omega)
  simp only [emaForecast]
  by_cases h3 : 3 ≤ values.length
  · have h3rd : (emaList a values).getD ((emaList a values).length - 3) 0 = v := by
      rw [hemalen]
      exact hgetD (values.length - 3) (by omega)
    simp only [if_pos h3, hlast, h3rd, sub_self, zero_div, zero_mul, add_zero]
    simp [List.map_const']
  · simp only [if_neg h3, hlast, zero_mul, add_zero]
    simp [List.map_const']

theorem effectiveWindow_bounds (ws : Option Int) (n : Nat) (hn : 2 ≤ n) :
    1 ≤ effectiveWindow ws n ∧ effectiveWindow ws n ≤ n := by
  cases ws with
  | none =>
    have he : effectiveWindow none n =
        if n ≤ max 2 (n / 3) then n - 1 else max 2 (n / 3) := rfl
    rw [he]
    split <;> omega
  | some wsv =>
    by_cases hw2 : wsv < 2
    · have he : effectiveWindow (some wsv) n =
          if n ≤ max 2 (n / 3) then n - 1 else max 2 (n / 3) := by
        simp [effectiveWindow, hw2]
      rw [he]
      split <;> omega
    · have he : effectiveWindow (some wsv) n =
          if n ≤ wsv.toNat then n - 1 else wsv.toNat := by
        simp [effectiveWindow, hw2]
      rw [he]
      have h2 : 2 ≤ wsv.toNat := by omega
      split <;> omega

/-- C7. On a constant series of `n ≥ 2` equal values `v`, the simple,
weighted, and exponential moving-average strategies each return a
prediction array whose every entry equals `v` (their trend term is zero),
for every horizon and every window-size / alpha parameter. -/
theorem C7_constant_moving_averages :
    ∀ (data : List Point) (v : ℚ) (periods : Int) (ws : Option Int) (al : Option ℚ),
      2 ≤ data.length → (∀ p ∈ data, p.value = v) →
      simpleMovingAverage data periods ws = .ok (List.replicate periods.toNat v) ∧
      weightedMovingAverage data periods ws = .ok (List.replicate periods.toNat v) ∧
      exponentialMovingAverage data periods al = .ok (List.replicate periods.toNat v) := by
  intro data v periods ws al hn hv
  have hvv : ∀ x ∈ data.map Point.value, x = v := by
    intro x hx
    rcases List.mem_map.mp hx with ⟨p, hp, rfl⟩
    exact hv p hp
  have hnl : ¬ data.length < 2 := by omega
  have hn2 : 2 ≤ (data.map Point.value).length := by simpa using hn
  obtain ⟨hw1, hwn⟩ := effectiveWindow_bounds ws (data.map Point.value).length hn2
  refine ⟨?_, ?_, ?_⟩
  · simp only [simpleMovingAverage, if_neg hnl]
    rw [smaForecast_const _ v _ _ hw1 hwn hvv]
  · simp only [weightedMovingAverage, if_neg hnl]
    rw [wmaForecast_const _ v _ _ hw1 hwn hvv]
  · simp only [exponentialMovingAverage, if_neg hnl]
    rw [emaForecast_const _ v _ _ (by omega) hvv]

/-- C7 witness: the constant series `[5,5,5,5,5,5]` of the spec forecasts
`5` under all three strategies for horizon 4. -/
theorem C7_constant_moving_averages_witness :
    simpleMovingAverage
        [⟨2018, 5⟩, ⟨2019, 5⟩, ⟨2020, 5⟩, ⟨2021, 5⟩, ⟨2022, 5⟩, ⟨2023, 5⟩] 4 none =
      .ok (List.replicate ((4 : Int)).toNat 5) ∧
    weightedMovingAverage
        [⟨2018, 5⟩, ⟨2019, 5⟩, ⟨2020, 5⟩, ⟨2021, 5⟩, ⟨2022, 5⟩, ⟨2023, 5⟩] 4 none =
      .ok (List.replicate ((4 : Int)).toNat 5) ∧
    exponentialMovingAverage
        [⟨2018, 5⟩, ⟨2019, 5⟩, ⟨2020, 5⟩, ⟨2021, 5⟩, ⟨2022, 5⟩, ⟨2023, 5⟩] 4 none =
      .ok (List.replicate ((4 : Int)).toNat 5) :=
  C7_constant_moving_averages
    [⟨2018, 5⟩, ⟨2019, 5⟩, ⟨2020, 5⟩, ⟨2021, 5⟩, ⟨2022, 5⟩, ⟨2023, 5⟩] 5 4 none none
    (by simp) (by intro p hp; fin_cases hp <;> rfl)

/-!
## Exponential smoothing family

From `predictionModels/exponentialSmoothing.js`.  The single-smoothing
recurrence coincides with the EMA recurrence, so `emaList` is reused.  The
JS float grid `0.1, 0.1+0.1, …` is rendered as the exact rationals
`0.1 … 0.9` / `0.05 … 0.5`, and `Math.floor(length * 0.7)` as `7·n/10`;
no claim depends on which grid candidate wins.  The `isNaN` guards cannot
fire over `ℚ` and are modelled separately in the `Option ℚ` section for C5.
-/

/-- One-step-ahead squared-error score of an `α` candidate
(`optimizeAlpha` loop body): errors `values[i] - smoothed[i-1]` over the
last 30% of the series. -/
def optMseAlpha (alpha : ℚ) (values : List ℚ) : ℚ :=
  let smoothed := emaList alpha values
  let testStart := values.length * 7 / 10
  (∑ i in Finset.Ico testStart values.length,
      (values.getD i 0 - smoothed.getD (i - 1) 0) ^ 2) /
    (((values.length - testStart : Nat)) : ℚ)

/-- Grid fold shared by the two optimizers: the running best is
`(candidate, Option score)` with `none` standing for the JS `Infinity`
initialization, so the first candidate always wins it. -/
def gridBest (score : ℚ → ℚ) (init : ℚ) (candidates : List ℚ) : ℚ :=
  let best := candidates.foldl
    (fun (acc : ℚ × Option ℚ) c =>
      let mse := score c
      match acc.2 with
      | none => (c, some mse)
      | some bm => if mse < bm then (c, some mse) else acc)
    (init, none)
  best.1

/-- Grid search for `α` over `0.1 … 0.9` minimizing `optMseAlpha`, with the
final validity check falling back to 0.3. -/
def optimizeAlpha (values : List ℚ) : ℚ :=
  let a := gridBest (fun c => optMseAlpha c values) 0.3
    [0.1, 0.2, 0.3, 0.4, 0.5, 0.6, 0.7, 0.8, 0.9]
  if a ≤ 0 ∨ 1 ≤ a then 0.3 else a

/-- Holt (level, trend) update loop: `level = α·v + (1-α)(level+trend)`,
`trend = β·(level-level₋₁) + (1-β)·trend₋₁`. -/
def desGo (alpha beta : ℚ) : ℚ → ℚ → List ℚ → List (ℚ × ℚ)
  | _, _, [] => []
  | prevL, prevT, vv :: rest =>
    let newL := alpha * vv + (1 - alpha) * (prevL + prevT)
    let newT := beta * (newL - prevL) + (1 - beta) * prevT
    (newL, newT) :: desGo alpha beta newL newT rest

/-- Holt (level, trend) pairs for `i = 0..n-1`, initialized with
`level₀ = values[0]`, `trend₀ = values[1] - values[0]`. -/
def desPairs (alpha beta : ℚ) (values : List ℚ) : List (ℚ × ℚ) :=
  let l0 := values.getD 0 0
  let t0 := values.getD 1 0 - values.getD 0 0
  (l0, t0) :: desGo alpha beta l0 t0 (values.drop 1)

/-- One-step-ahead squared-error score of a `β` candidate
(`optimizeBeta` loop body): forecasts `level[i-1] + trend[i-1]`. -/
def optMseBeta (alpha beta : ℚ) (values : List ℚ) : ℚ :=
  let pairs := desPairs alpha beta values
  let testStart := values.length * 7 / 10
  (∑ i in Finset.Ico testStart values.length,
      (values.getD i 0 -
        ((pairs.getD (i - 1) (0, 0)).1 + (pairs.getD (i - 1) (0, 0)).2)) ^ 2) /
    (((values.length - testStart : Nat)) : ℚ)

/-- Grid search for `β` over `0.05 … 0.5` minimizing `optMseBeta`, with the
final validity check falling back to 0.1. -/
def optimizeBeta (values : List ℚ) (alpha : ℚ) : ℚ :=
  let b := gridBest (fun c => optMseBeta alpha c values) 0.1
    [0.05, 0.1, 0.15, 0.2, 0.25, 0.3, 0.35, 0.4, 0.45, 0.5]
  if b ≤ 0 ∨ 1 ≤ b then 0.1 else b

/-- Single exponential smoothing over `ℚ` (`singleExponentialSmoothing`):
flat forecast at the last smoothed value.  The JS `isNaN` fallback cannot
fire in exact arithmetic; it is modelled in the `Option ℚ` section. -/
def singleExponentialSmoothing (data : List Point) (periods : Int) (alpha : Option ℚ) :
    Except JsError (List ℚ) :=
  if data.length < 3 then .error (.insufficientData 3)
  else
    let values := data.map Point.value
    let a :=
      match alpha with
      | none => optimizeAlpha values
      | some a0 => if a0 ≤ 0 ∨ 1 ≤ a0 then optimizeAlpha values else a0
    let smoothed := emaList a values
    let lastSmoothed := smoothed.getD (smoothed.length - 1) 0
    .ok (List.replicate periods.toNat lastSmoothed)

/-- Double exponential smoothing (`doubleExponentialSmoothing`): forecast
`level + (i+1)·trend` from the final Holt pair. -/
def doubleExponentialSmoothing (data : List Point) (periods : Int) (alpha beta : Option ℚ) :
    Except JsError (List ℚ) :=
  if data.length < 3 then .error (.insufficientData 3)
  else
    let values := data.map Point.value
    let a :=
      match alpha with
      | none => optimizeAlpha values
      | some a0 => if a0 ≤ 0 ∨ 1 ≤ a0 then optimizeAlpha values else a0
    let b :=
      match beta with
      | none => optimizeBeta values a
      | some b0 => if b0 ≤ 0 ∨ 1 ≤ b0 then optimizeBeta values a else b0
    let pairs := desPairs a b values
    let last := pairs.getD (pairs.length - 1) (0, 0)
    .ok ((List.range periods.toNat).map fun i : Nat => last.1 + ((i : ℚ) + 1) * last.2)

/-- Mean of the values at phase `i` modulo `seasonLength`
(the JS `for (j = i; j < n; j += seasonLength)` accumulation), with the
given fallback when the phase is empty. -/
def phaseMean (values : List ℚ) (seasonLength i : Nat) (fallback : ℚ) : ℚ :=
  let idxs := (List.range values.length).filter fun j => j % seasonLength = i
  if 0 < idxs.length then (idxs.map fun j => values.getD j 0).sum / (idxs.length : ℚ)
  else fallback

/-- Holt-Winters update loop: state `(level, trend, seasonal array)`,
iterated over indices `1..n-1`. -/
def tesState (alpha beta gamma : ℚ) (sl : Nat) (values : List ℚ)
    (init : ℚ × ℚ × List ℚ) : ℚ × ℚ × List ℚ :=
  (List.range' 1 (values.length - 1)).foldl
    (fun st i =>
      let prevL := st.1
      let prevT := st.2.1
      let seas := st.2.2
      let sIdx := i % sl
      let prevSeasonal := seas.getD sIdx 0
      let newL := alpha * (values.getD i 0 / prevSeasonal) + (1 - alpha) * (prevL + prevT)
      let newT := beta * (newL - prevL) + (1 - beta) * prevT
      (newL, newT, seas.set sIdx (gamma * (values.getD i 0 / newL) + (1 - gamma) * prevSeasonal)))
    init

/-- Triple exponential smoothing (`tripleExponentialSmoothing`).  The JS
initialization reads `seasonal[seasonLength]`, one past the end — that read
is `undefined` (`NaN`) in JS and `getD … 0` here; the numeric outputs of the
triple path are not the subject of any claim, only the output length. -/
def tripleExponentialSmoothing (data : List Point) (periods : Int) (seasonLength : Nat)
    (alpha beta gamma : Option ℚ) : Except JsError (List ℚ) :=
  if data.length < seasonLength * 2 then .error (.insufficientData (seasonLength * 2))
  else
    let values := data.map Point.value
    let n := values.length
    let a := match alpha with
      | none => (0.3 : ℚ)
      | some a0 => if a0 ≤ 0 ∨ 1 ≤ a0 then (0.3 : ℚ) else a0
    let b := match beta with
      | none => (0.1 : ℚ)
      | some b0 => if b0 ≤ 0 ∨ 1 ≤ b0 then (0.1 : ℚ) else b0
    let g := match gamma with
      | none => (0.3 : ℚ)
      | some g0 => if g0 ≤ 0 ∨ 1 ≤ g0 then (0.3 : ℚ) else g0
    let seasonal0 := (List.range seasonLength).map fun i => phaseMean values seasonLength i 1
    let avgSeasonal := seasonal0.sum / (seasonLength : ℚ)
    let seasonal := seasonal0.map (· / avgSeasonal)
    let level0 := values.getD 0 0 / seasonal.getD 0 0
    let trend0 :=
      (values.getD seasonLength 0 / seasonal.getD seasonLength 0 - level0) / (seasonLength : ℚ)
    let final := tesState a b g seasonLength values (level0, trend0, seasonal)
    .ok ((List.range periods.toNat).map fun i : Nat =>
      let sIdx := (n + i) % seasonLength
      let factor := if final.2.2.getD sIdx 0 = 0 then 1 else final.2.2.getD sIdx 0
      (final.1 + ((i : ℚ) + 1) * final.2.1) * factor)

/-- Largest value of a list (JS `Math.max(...values)`; 0 on the empty list,
which no guarded call reaches). -/
def maxQ : List ℚ → ℚ
  | [] => 0
  | x :: t => t.foldl max x

/-- Smallest value of a list (JS `Math.min(...values)`). -/
def minQ : List ℚ → ℚ
  | [] => 0
  | x :: t => t.foldl min x

/-- Trend detection (`detectTrend`): OLS slope over the index sequence,
compared against `0.1 · (range / n)`. -/
def detectTrend (data : List Point) : Bool :=
  let values := data.map Point.value
  let n : ℚ := values.length
  let s := lrSums values 0
  let slope := (n * s.2.2.1 - s.1 * s.2.1) / (n * s.2.2.2 - s.1 * s.1)
  let threshold := (maxQ values - minQ values) / n
  decide (|slope| > threshold * 0.1)

/-- Seasonality detection (`detectSeasonality`): coefficient of variation of
the phase means exceeds 0.1.  The JS comparison `sqrt(variance)/mean > 0.1`
is rendered over `ℚ` by its exact real-arithmetic equivalent: for
`mean > 0` it is `variance > (0.1·mean)²`; for `mean = 0` JS gets
`Infinity > 0.1` when `variance > 0` and `NaN > 0.1` (false) when it is 0;
for `mean < 0` the quotient is nonpositive, hence false. -/
def detectSeasonality (data : List Point) (seasonLength : Nat) : Bool :=
  let values := data.map Point.value
  let seasonalMeans := (List.range seasonLength).map fun i => phaseMean values seasonLength i 0
  let overallMean := seasonalMeans.sum / (seasonLength : ℚ)
  let varQ := (seasonalMeans.map fun v => (v - overallMean) ^ 2).sum / (seasonLength : ℚ)
  if 0 < overallMean then decide (varQ > (overallMean * 0.1) ^ 2)
  else if overallMean = 0 then decide (varQ > 0)
  else false

/-- Dispatcher (`exponentialSmoothing`): auto-selects triple/double/single
from the seasonality and trend heuristics; unknown types fall to single. -/
def exponentialSmoothing (data : List Point) (periods : Int) (type : String)
    (seasonLength : Nat) : Except JsError (List ℚ) :=
  if data.length < 3 then .error (.insufficientData 3)
  else
    let t :=
      if type = "auto" then
        if seasonLength * 2 ≤ data.length then
          if detectSeasonality data seasonLength then "triple"
          else if detectTrend data then "double" else "single"
        else if detectTrend data then "double" else "single"
      else type
    if t = "single" then singleExponentialSmoothing data periods none
    else if t = "double" then doubleExponentialSmoothing data periods none none
    else if t = "triple" then tripleExponentialSmoothing data periods seasonLength none none none
    else singleExponentialSmoothing data periods none

/-!
## Polynomial regression

From `predictionModels/polynomialRegression.js`: normal-equations system
over power sums of the index sequence, solved with the shared Gaussian
kernel; degree 2, 3, or auto-selected by in-sample R².
-/

/-- Degree selector: the orchestrator passes `modelParams.degree || 'auto'`,
so both an absent and a zero degree mean `auto`. -/
inductive DegreeSel where
  | auto
  | deg (n : Nat)
  deriving DecidableEq, Repr

/-- Normal-equations coefficients (`calculatePolynomialCoefficients`):
`AtA[i][j] = Σ k^i·k^j`, `Aty[i] = Σ k^i·y[k]` over indices `k`, solved by
`solveLinearSystem`. -/
def calculatePolynomialCoefficients (data : List Point) (degree : Nat) :
    Except JsError (List ℚ) :=
  if data.length < degree + 1 then .error (.insufficientData (degree + 1))
  else
    let n := data.length
    let y := data.map Point.value
    let AtA := (List.range (degree + 1)).map fun i =>
      (List.range (degree + 1)).map fun j => ∑ k in Finset.range n, (k : ℚ) ^ i * (k : ℚ) ^ j
    let Aty := (List.range (degree + 1)).map fun i =>
      ∑ k in Finset.range n, (k : ℚ) ^ i * y.getD k 0
    solveLinearSystem AtA Aty

/-- Horner-free polynomial evaluation `Σ aᵢ·xⁱ` (`evaluatePolynomial`). -/
def evaluatePolynomial (coeffs : List ℚ) (x : ℚ) : ℚ :=
  ∑ i in Finset.range coeffs.length, coeffs.getD i 0 * x ^ i

/-- Degree-2 regression (`polynomialRegression2`): fit, then evaluate at
future indices `n + i`. -/
def polynomialRegression2 (data : List Point) (periods : Int) : Except JsError (List ℚ) :=
  match calculatePolynomialCoefficients data 2 with
  | .error e => .error e
  | .ok coeffs => .ok ((List.range periods.toNat).map fun i : Nat =>
      evaluatePolynomial coeffs ((data.length : ℚ) + (i : ℚ)))

/-- Degree-3 regression (`polynomialRegression3`). -/
def polynomialRegression3 (data : List Point) (periods : Int) : Except JsError (List ℚ) :=
  match calculatePolynomialCoefficients data 3 with
  | .error e => .error e
  | .ok coeffs => .ok ((List.range periods.toNat).map fun i : Nat =>
      evaluatePolynomial coeffs ((data.length : ℚ) + (i : ℚ)))

/-- In-sample R² of a fitted degree (the `polynomialRegressionAuto` loop
body): `1 - ssRes/ssTot`.  When `ssTot = 0`, JS produces a non-finite R²
that never wins the comparison, while `ℚ` division by zero yields `r2 = 1`;
this can only affect which degree auto mode picks, which no claim
touches. -/
def polyR2 (data : List Point) (degree : Nat) : Except JsError ℚ :=
  match calculatePolynomialCoefficients data degree with
  | .error e => .error e
  | .ok coeffs =>
    let n := data.length
    let y := data.map Point.value
    let yMean := y.sum / (n : ℚ)
    let ssRes := ∑ i in Finset.range n, (y.getD i 0 - evaluatePolynomial coeffs (i : ℚ)) ^ 2
    let ssTot := ∑ i in Finset.range n, (y.getD i 0 - yMean) ^ 2
    .ok (1 - ssRes / ssTot)

/-- Auto degree selection (`polynomialRegressionAuto`): fewer than 4 points
falls straight to degree 2; otherwise degrees 2 and 3 are scored by R²
(failures skipped, `-Infinity` initialization modelled as `none`) and the
winner refitted. -/
def polynomialRegressionAuto (data : List Point) (periods : Int) : Except JsError (List ℚ) :=
  if data.length < 4 then polynomialRegression2 data periods
  else
    let best := [2, 3].foldl
      (fun (acc : Nat × Option ℚ) degree =>
        if data.length < degree + 1 then acc
        else
          match polyR2 data degree with
          | .error _ => acc
          | .ok r2 =>
            match acc.2 with
            | none => (degree, some r2)
            | some br => if r2 > br then (degree, some r2) else acc)
      (2, none)
    if best.1 = 2 then polynomialRegression2 data periods
    else polynomialRegression3 data periods

/-- Entry point (`polynomialRegression`): 3-point minimum, then dispatch on
the degree selector; degrees other than 2/3/auto raise. -/
def polynomialRegression (data : List Point) (periods : Int) (degree : DegreeSel) :
    Except JsError (List ℚ) :=
  if data.length < 3 then .error (.insufficientData 3)
  else
    match degree with
    | .auto => polynomialRegressionAuto data periods
    | .deg 2 => polynomialRegression2 data periods
    | .deg 3 => polynomialRegression3 data periods
    | .deg _ => .error .invalidDegree

/-!
## Forecasting orchestrator

From `predictionService.js` (`detectTimeInterval`, `generatePrediction`)
and the model-parameter plumbing of the dispatch switch.  `time` is `Int`;
JS `Math.floor(t / 100)` is `Int.fdiv`, JS `%` is `Int.tmod`.
-/

/-- Year-month format test: `String(t).length === 6 && t >= 100000 &&
t <= 999999` — over integers, exactly the interval `[100000, 999999]`
(negative six-character strings fail the `>= 100000` test). -/
def isYearMonthTime (t : Int) : Bool :=
  decide (100000 ≤ t ∧ t ≤ 999999)

/-- Consecutive time deltas (in months for year-month, else in raw units),
keeping only positive ones, as in the `detectTimeInterval` loop. -/
def consecDeltas (isYM : Bool) (data : List Point) : List Int :=
  (List.zipWith
    (fun p2 p1 =>
      if isYM then
        (Int.fdiv p2.time 100 - Int.fdiv p1.time 100) * 12 +
          (Int.tmod p2.time 100 - Int.tmod p1.time 100)
      else p2.time - p1.time)
    (data.drop 1) data).filter fun dlt => 0 < dlt

/-- Modal positive delta.  JS iterates the count-object keys; numeric keys
of a JS object enumerate in ascending order, so ties go to the smallest
interval; `maxCount` starts at 0 and `mostCommon` at 1. -/
def modalInterval (intervals : List Int) : Int :=
  if intervals = [] then 1
  else
    let keys := intervals.dedup.mergeSort fun a b => decide (a ≤ b)
    (keys.foldl
      (fun (acc : Int × Nat) k =>
        let c := intervals.count k
        if acc.2 < c then (k, c) else acc)
      (1, 0)).1

/-- Time-interval detection (`detectTimeInterval`): default 1 below 2
points, else the modal positive consecutive delta. -/
def detectTimeInterval (timeSeriesData : List Point) : Int :=
  if timeSeriesData.length < 2 then 1
  else
    let firstTime := (timeSeriesData.getD 0 ⟨0, 0⟩).time
    modalInterval (consecDeltas (isYearMonthTime firstTime) timeSeriesData)

/-- Optional model parameters (`modelParams`), one field per key the JS
dispatch reads; `none` is an absent key. -/
structure ModelParams where
  type : Option String := none
  windowSize : Option Int := none
  alpha : Option ℚ := none
  seasonLength : Option Nat := none
  degree : Option Nat := none
  p : Option Nat := none
  d : Option Nat := none
  q : Option Nat := none
  deriving DecidableEq, Repr

/-- JS `s || dflt` on an optional string (the empty string is falsy). -/
def jsOrStr (o : Option String) (dflt : String) : String :=
  match o with
  | some s => if s = "" then dflt else s
  | none => dflt

/-- Degree argument of the polynomial branch: `modelParams.degree || 'auto'`,
so absent and zero both mean auto. -/
def degreeSelOf : Option Nat → DegreeSel
  | some (Nat.succ k) => .deg (Nat.succ k)
  | _ => .auto

/-- One output point of the prediction payload. -/
structure OutPoint where
  time : Int
  value : ℚ
  isPrediction : Bool
  deriving DecidableEq, Repr

/-- The `statistics` object of the result payload. -/
structure PredStats where
  avgValue : ℚ
  lastValue : ℚ
  predictedValue : Option ℚ
  growthRate : Option ℚ
  truncatedCount : Nat
  deriving DecidableEq, Repr

/-- The orchestrator's result payload. -/
structure PredictionResult where
  predictions : List OutPoint
  historicalData : List OutPoint
  statistics : PredStats
  timeInterval : Int
  timeFormat : String
  model : String
  deriving DecidableEq, Repr

/-- Future timestamp projection for the `i`-th prediction: year format adds
`interval·(i+1)`; year-month adds that many months with the explicit
`nextMonth > 12` carry (`nextYear += ⌊(m-1)/12⌋; m = ((m-1) % 12) + 1`). -/
def nextPredictionTime (lastTime timeInterval : Int) (timeFormat : String) (i : Nat) : Int :=
  if timeFormat = "yearmonth" then
    let year := Int.fdiv lastTime 100
    let month := Int.tmod lastTime 100
    let intervalMonths := timeInterval * ((i : Int) + 1)
    let nextMonth := month + intervalMonths
    if 12 < nextMonth then
      (year + Int.fdiv (nextMonth - 1) 12) * 100 + (Int.tmod (nextMonth - 1) 12 + 1)
    else year * 100 + nextMonth
  else lastTime + timeInterval * ((i : Int) + 1)

/-- Assembly of the `predictions` array: JS `validPredictions.map((value,
index) => ({time: predictionTimes[index], value, isPrediction: true}))`,
rendered with an explicit running index. -/
def buildPreds (ts : List Int) : List ℚ → Nat → List OutPoint
  | [], _ => []
  | v :: vs, i => { time := ts.getD i 0, value := v, isPrediction := true } :: buildPreds ts vs (i + 1)

/-- The model-dispatch switch of `generatePrediction` (lines 134-181),
including each branch's parameter defaulting. -/
def dispatchModel (historicalData : List Point) (periods : Int) (model : String)
    (modelParams : ModelParams) : Except JsError (List ℚ) :=
  if model = "linear" then
    match linearRegression historicalData with
    | .error e => .error e
    | .ok si => .ok (linearForecast historicalData periods si.1 si.2)
  else if model = "exponential" then
    exponentialSmoothing historicalData periods (jsOrStr modelParams.type "auto")
      (jsOrNatOpt modelParams.seasonLength 12)
  else if model = "movingAverage" then
    movingAverage historicalData periods (jsOrStr modelParams.type "auto")
      modelParams.windowSize modelParams.alpha
  else if model = "polynomial" then
    polynomialRegression historicalData periods (degreeSelOf modelParams.degree)
  else if model = "arima" then
    arima historicalData periods
      (chooseArimaOrder modelParams.p modelParams.d modelParams.q historicalData)
  else .error (.unsupportedModel model)

/-- The forecasting orchestrator (`generatePrediction`): data-size check,
periods check, dispatch (errors wrapped as model failures), timestamp
projection, statistics, payload assembly.  The NaN sanitization of
`validPredictions` is the identity over `ℚ` (see the `Option ℚ` section
for the guard itself). -/
def generatePrediction (historicalData : List Point) (periods : Int)
    (model : String := "linear") (timeInterval : Int := 1) (timeFormat : String := "year")
    (modelParams : ModelParams := {}) : Except JsError PredictionResult :=
  if historicalData.length < 2 then .error (.insufficientData 2)
  else if periods ≤ 0 then .error .invalidPeriods
  else
    match dispatchModel historicalData periods model modelParams with
    | .error e => .error (.modelFailure model e)
    | .ok predictions =>
      let lastTime := (historicalData.getD (historicalData.length - 1) ⟨0, 0⟩).time
      let predictionTimes := (List.range periods.toNat).map fun i =>
        nextPredictionTime lastTime timeInterval timeFormat i
      let avgValue := (historicalData.map Point.value).sum / (historicalData.length : ℚ)
      let lastValue := (historicalData.getD (historicalData.length - 1) ⟨0, 0⟩).value
      let predictedValue :=
        if predictions.length = 0 then none
        else some (predictions.getD (predictions.length - 1) 0)
      let growthRate :=
        match predictedValue with
        | none => none
        | some pv => if lastValue ≠ 0 then some ((pv - lastValue) / lastValue * 100) else none
      let validPredictions := predictions
      .ok
        { predictions := buildPreds predictionTimes validPredictions 0
          historicalData := historicalData.map fun item =>
            { time := item.time, value := item.value, isPrediction := false }
          statistics :=
            { avgValue := avgValue
              lastValue := lastValue
              predictedValue := predictedValue
              growthRate := growthRate
              truncatedCount := 0 }
          timeInterval := timeInterval
          timeFormat := timeFormat
          model := model }

/-- Ascending time sort performed by the data-access layer
(`localDataService.js` `getTimeSeriesData`: `filteredData.sort((a, b) =>
(a.repp || 0) - (b.repp || 0))`, a stable comparator sort). -/
def sortByTime (l : List Point) : List Point :=
  l.mergeSort fun a b => decide (a.time ≤ b.time)

/-- C9 counterexample: with a 1-point series and `periods = 0` the
orchestrator raises the insufficient-data error, not the invalid-periods
error — the series-length check runs first, so the claim's "regardless of
the series' content or length" fails. -/
theorem C9_periods_counterexample :
    generatePrediction [⟨2020, 1⟩] 0 "linear" 1 "year" {} = .error (.insufficientData 2) ∧
    JsError.insufficientData 2 ≠ JsError.invalidPeriods := by
  exact ⟨rfl, by decide⟩

/-- C9 (amended). For every call with `periods ≤ 0` whose series has at
least 2 points, the orchestrator fails with the invalid-periods error
before dispatching; with fewer than 2 points the insufficient-data check
fires first, whatever `periods` is. -/
theorem C9_invalid_periods :
    (∀ (data : List Point) (periods : Int) (model : String) (ti : Int) (tf : String)
        (mp : ModelParams), 2 ≤ data.length → periods ≤ 0 →
        generatePrediction data periods model ti tf mp = .error .invalidPeriods) ∧
    (∀ (data : List Point) (periods : Int) (model : String) (ti : Int) (tf : String)
        (mp : ModelParams), data.length < 2 →
        generatePrediction data periods model ti tf mp = .error (.insufficientData 2)) := by
  constructor
  · intro data periods model ti tf mp h2 hp
    have hl : ¬ data.length < 2 := by omega
    simp [generatePrediction, hl, hp]
  · intro data periods model ti tf mp h2
    simp [generatePrediction, h2]

/-- C9 witness: a 2-point series with `periods = 0` gets the
invalid-periods error; a 1-point series with negative periods gets the
insufficient-data error. -/
theorem C9_invalid_periods_witness :
    generatePrediction [⟨2020, 1⟩, ⟨2021, 2⟩] 0 "linear" 1 "year" {} =
      .error .invalidPeriods ∧
    generatePrediction [⟨2020, 1⟩] (-3) "linear" 1 "year" {} =
      .error (.insufficientData 2) :=
  ⟨C9_invalid_periods.1 [⟨2020, 1⟩, ⟨2021, 2⟩] 0 "linear" 1 "year" {} (by decide) (by decide),
   C9_invalid_periods.2 [⟨2020, 1⟩] (-3) "linear" 1 "year" {} (by decide)⟩

/-- C1 (amended). The orchestrator does not sort: it consumes the series in
caller order (the echoed `historicalData` of every successful result
preserves that order exactly), so the prediction result depends on the
caller's ordering; ascending time order is instead established upstream by
the data-access layer's sort, which always yields a time-sorted series. -/
theorem C1_no_orchestrator_sort :
    (∀ (data : List Point) (periods : Int) (model : String) (ti : Int) (tf : String)
        (mp : ModelParams) (res : PredictionResult),
        generatePrediction data periods model ti tf mp = .ok res →
          res.historicalData = data.map fun p => ⟨p.time, p.value, false⟩) ∧
    (∀ raw : List Point, List.Pairwise (fun a b : Point => a.time ≤ b.time) (sortByTime raw)) := by
  constructor
  · intro data periods model ti tf mp res h
    simp only [generatePrediction] at h
    split at h
    · exact absurd h (by simp)
    · split at h
      · exact absurd h (by simp)
      · cases hd : dispatchModel data periods model mp with
        | error e => rw [hd] at h; exact absurd h (by simp)
        | ok l =>
          rw [hd] at h
          injection h with h
          subst h
          rfl
  · intro raw
    have htrans : ∀ a b c : Point, (decide (a.time ≤ b.time)) = true →
        (decide (b.time ≤ c.time)) = true → (decide (a.time ≤ c.time)) = true := by
      intro a b c hab hbc
      simp only [decide_eq_true_eq] at hab hbc ⊢
      exact le_trans hab hbc
    have htotal : ∀ a b : Point,
        ((decide (a.time ≤ b.time)) || (decide (b.time ≤ a.time))) = true := by
      intro a b
      rcases le_total a.time b.time with h | h <;> simp [h]
    have hs := @List.sorted_mergeSort Point (fun a b => decide (a.time ≤ b.time))
      htrans htotal raw
    refine hs.imp ?_
    intro a b hab
    simpa using hab

/-- Result of the sorted-order linear run used for C1. -/
def linAResult : PredictionResult :=
  { predictions := [⟨4, 4, true⟩]
    historicalData := [⟨1, 1, false⟩, ⟨2, 2, false⟩, ⟨3, 3, false⟩]
    statistics :=
      { avgValue := 2, lastValue := 3, predictedValue := some 4,
        growthRate := some (100 / 3), truncatedCount := 0 }
    timeInterval := 1
    timeFormat := "year"
    model := "linear" }

/-- Result of the permuted-order linear run used for C1. -/
def linBResult : PredictionResult :=
  { predictions := [⟨3, 3, true⟩]
    historicalData := [⟨1, 1, false⟩, ⟨3, 3, false⟩, ⟨2, 2, false⟩]
    statistics :=
      { avgValue := 2, lastValue := 2, predictedValue := some 3,
        growthRate := some 50, truncatedCount := 0 }
    timeInterval := 1
    timeFormat := "year"
    model := "linear" }

theorem generatePrediction_linearA :
    generatePrediction [⟨1, 1⟩, ⟨2, 2⟩, ⟨3, 3⟩] 1 "linear" 1 "year" {} = .ok linAResult := by
  norm_num [linAResult, generatePrediction, dispatchModel, linearRegression, lrSums,
    linearForecast, buildPreds, nextPredictionTime, List.range_succ,
    show (1 : Int).toNat = 1 from rfl,
    show ("year" : String) ≠ "yearmonth" from by decide]

theorem generatePrediction_linearB :
    generatePrediction [⟨1, 1⟩, ⟨3, 3⟩, ⟨2, 2⟩] 1 "linear" 1 "year" {} = .ok linBResult := by
  norm_num [linBResult, generatePrediction, dispatchModel, linearRegression, lrSums,
    linearForecast, buildPreds, nextPredictionTime, List.range_succ,
    show (1 : Int).toNat = 1 from rfl,
    show ("year" : String) ≠ "yearmonth" from by decide]

/-- C1 counterexample: the same multiset of points, supplied in two
different orders, yields different prediction results through the
orchestrator — so the orchestrator cannot be sorting the series before
dispatch. -/
theorem C1_order_dependence_counterexample :
    List.Perm ([⟨1, 1⟩, ⟨2, 2⟩, ⟨3, 3⟩] : List Point) [⟨1, 1⟩, ⟨3, 3⟩, ⟨2, 2⟩] ∧
    generatePrediction [⟨1, 1⟩, ⟨2, 2⟩, ⟨3, 3⟩] 1 "linear" 1 "year" {} ≠
      generatePrediction [⟨1, 1⟩, ⟨3, 3⟩, ⟨2, 2⟩] 1 "linear" 1 "year" {} := by
  constructor
  · exact (List.Perm.swap (⟨3, 3⟩ : Point) (⟨2, 2⟩ : Point) ([] : List Point)).cons
      (⟨1, 1⟩ : Point)
  · rw [generatePrediction_linearA, generatePrediction_linearB]
    intro h
    injection h with h
    have hp := congrArg PredictionResult.predictions h
    simp [linAResult, linBResult] at hp

/-- C1 witness: a successful concrete run echoes the caller's (unsorted)
order in `historicalData`, and the data-layer sort of a concrete list is
time-ascending. -/
theorem C1_no_orchestrator_sort_witness :
    linAResult.historicalData = ([⟨1, 1⟩, ⟨2, 2⟩, ⟨3, 3⟩] : List Point).map
      (fun p => ⟨p.time, p.value, false⟩) ∧
    List.Pairwise (fun a b : Point => a.time ≤ b.time)
      (sortByTime [⟨2021, 2⟩, ⟨2020, 1⟩]) :=
  ⟨C1_no_orchestrator_sort.1 [⟨1, 1⟩, ⟨2, 2⟩, ⟨3, 3⟩] 1 "linear" 1 "year" {} linAResult
      generatePrediction_linearA,
   C1_no_orchestrator_sort.2 [⟨2021, 2⟩, ⟨2020, 1⟩]⟩

/-!
## C2 infrastructure: output lengths and projected timestamps
-/

theorem arForecastGo_length (phi : List ℚ) :
    ∀ (k : Nat) (history : List ℚ), (arForecastGo phi k history).length = k := by
  intro k
  induction k with
  | zero => intro history; rfl
  | succ m ih => intro history; simp [arForecastGo, ih]

theorem invDiffGo_length (o : Nat) :
    ∀ (l acc : List ℚ), (invDiffGo o acc l).length = acc.length + l.length := by
  intro l
  induction l with
  | nil => intro acc; simp [invDiffGo]
  | cons x rest ih =>
    intro acc
    simp only [invDiffGo, ih, List.length_append, List.length_cons, List.length_nil]
    omega

theorem inverseDifference_length (orig diffed : List ℚ) (o : Nat) :
    (inverseDifference orig diffed o).length = diffed.length := by
  simp [inverseDifference, invDiffGo_length]

theorem singleES_length (data : List Point) (periods : Int) (alpha : Option ℚ) (l : List ℚ)
    (h : singleExponentialSmoothing data periods alpha = .ok l) : l.length = periods.toNat := by
  simp only [singleExponentialSmoothing] at h
  split at h
  · exact absurd h (by simp)
  · injection h with h
    subst h
    simp

theorem doubleES_length (data : List Point) (periods : Int) (alpha beta : Option ℚ) (l : List ℚ)
    (h : doubleExponentialSmoothing data periods alpha beta = .ok l) :
    l.length = periods.toNat := by
  simp only [doubleExponentialSmoothing] at h
  split at h
  · exact absurd h (by simp)
  · injection h with h
    subst h
    simp

theorem tripleES_length (data : List Point) (periods : Int) (sl : Nat)
    (alpha beta gamma : Option ℚ) (l : List ℚ)
    (h : tripleExponentialSmoothing data periods sl alpha beta gamma = .ok l) :
    l.length = periods.toNat := by
  simp only [tripleExponentialSmoothing] at h
  split at h
  · exact absurd h (by simp)
  · injection h with h
    subst h
    simp

theorem exponentialSmoothing_length (data : List Point) (periods : Int) (type : String)
    (sl : Nat) (l : List ℚ)
    (h : exponentialSmoothing data periods type sl = .ok l) : l.length = periods.toNat := by
  simp only [exponentialSmoothing] at h
  repeat' split at h
  all_goals first
    | exact absurd h (by simp)
    | exact singleES_length _ _ _ _ h
    | exact doubleES_length _ _ _ _ _ h
    | exact tripleES_length _ _ _ _ _ _ _ h

theorem smaForecast_length (values : List ℚ) (w k : Nat) :
    (smaForecast values w k).length = k := by
  simp [smaForecast]

theorem wmaForecast_length (values : List ℚ) (w k : Nat) :
    (wmaForecast values w k).length = k := by
  simp [wmaForecast]

theorem emaForecast_length (values : List ℚ) (a : ℚ) (k : Nat) :
    (emaForecast values a k).length = k := by
  simp [emaForecast]

theorem simpleMA_length (data : List Point) (periods : Int) (ws : Option Int) (l : List ℚ)
    (h : simpleMovingAverage data periods ws = .ok l) : l.length = periods.toNat := by
  simp only [simpleMovingAverage] at h
  split at h
  · exact absurd h (by simp)
  · injection h with h
    subst h
    exact smaForecast_length _ _ _

theorem weightedMA_length (data : List Point) (periods : Int) (ws : Option Int) (l : List ℚ)
    (h : weightedMovingAverage data periods ws = .ok l) : l.length = periods.toNat := by
  simp only [weightedMovingAverage] at h
  split at h
  · exact absurd h (by simp)
  · injection h with h
    subst h
    exact wmaForecast_length _ _ _

theorem exponentialMA_length (data : List Point) (periods : Int) (al : Option ℚ) (l : List ℚ)
    (h : exponentialMovingAverage data periods al = .ok l) : l.length = periods.toNat := by
  simp only [exponentialMovingAverage] at h
  split at h
  · exact absurd h (by simp)
  · injection h with h
    subst h
    exact emaForecast_length _ _ _

theorem movingAverage_length (data : List Point) (periods : Int) (type : String)
    (ws : Option Int) (al : Option ℚ) (l : List ℚ)
    (h : movingAverage data periods type ws al = .ok l) : l.length = periods.toNat := by
  simp only [movingAverage] at h
  repeat' split at h
  all_goals first
    | exact absurd h (by simp)
    | exact simpleMA_length _ _ _ _ h
    | exact weightedMA_length _ _ _ _ h
    | exact exponentialMA_length _ _ _ _ h

theorem poly2_length (data : List Point) (periods : Int) (l : List ℚ)
    (h : polynomialRegression2 data periods = .ok l) : l.length = periods.toNat := by
  simp only [polynomialRegression2] at h
  split at h
  · exact absurd h (by simp)
  · injection h with h
    subst h
    simp

theorem poly3_length (data : List Point) (periods : Int) (l : List ℚ)
    (h : polynomialRegression3 data periods = .ok l) : l.length = periods.toNat := by
  simp only [polynomialRegression3] at h
  split at h
  · exact absurd h (by simp)
  · injection h with h
    subst h
    simp

theorem polyAuto_length (data : List Point) (periods : Int) (l : List ℚ)
    (h : polynomialRegressionAuto data periods = .ok l) : l.length = periods.toNat := by
  simp only [polynomialRegressionAuto] at h
  split at h
  · exact poly2_length _ _ _ h
  · split at h
    · exact poly2_length _ _ _ h
    · exact poly3_length _ _ _ h

theorem polynomialRegression_length (data : List Point) (periods : Int) (deg : DegreeSel)
    (l : List ℚ) (h : polynomialRegression data periods deg = .ok l) :
    l.length = periods.toNat := by
  simp only [polynomialRegression] at h
  repeat' split at h
  all_goals first
    | exact absurd h (by simp)
    | exact polyAuto_length _ _ _ h
    | exact poly2_length _ _ _ h
    | exact poly3_length _ _ _ h

theorem arima_length (data : List Point) (periods : Int) (params : ArimaOrder) (l : List ℚ)
    (h : arima data periods params = .ok l) : l.length = periods.toNat := by
  simp only [arima] at h
  split at h
  · exact absurd h (by simp)
  · split at h
    · exact absurd h (by simp)
    · split at h
      · exact absurd h (by simp)
      · injection h with h
        subst h
        rw [inverseDifference_length]
        simp [arForecast, arForecastGo_length]

theorem dispatchModel_length (data : List Point) (periods : Int) (model : String)
    (mp : ModelParams) (l : List ℚ)
    (h : dispatchModel data periods model mp = .ok l) : l.length = periods.toNat := by
  simp only [dispatchModel] at h
  repeat' split at h
  all_goals first
    | exact exponentialSmoothing_length _ _ _ _ _ h
    | exact movingAverage_length _ _ _ _ _ _ h
    | exact polynomialRegression_length _ _ _ _ h
    | exact arima_length _ _ _ _ h
    | (injection h with h; subst h; simp [linearForecast])
    | injection h

theorem buildPreds_length (ts : List Int) :
    ∀ (vs : List ℚ) (i : Nat), (buildPreds ts vs i).length = vs.length := by
  intro vs
  induction vs with
  | nil => intro i; rfl
  | cons v vs ih => intro i; simp [buildPreds, ih]

theorem buildPreds_map_time (ts : List Int) :
    ∀ (vs : List ℚ) (i : Nat), i + vs.length ≤ ts.length →
      (buildPreds ts vs i).map OutPoint.time = (ts.drop i).take vs.length := by
  intro vs
  induction vs with
  | nil => intro i _; simp [buildPreds]
  | cons v vs ih =>
    intro i h
    simp only [buildPreds, List.map_cons, List.length_cons]
    rw [ih (i + 1) (by simp at h ⊢; omega)]
    have hi : i < ts.length := by simp at h; omega
    rw [List.getD_eq_getElem?_getD, List.getElem?_eq_getElem hi]
    rw [List.drop_eq_getElem_cons hi, List.take_succ_cons, Option.getD_some]

/-- Month index of a year-month encoded time: `12·year + month`, with the
same floor-division / JS-remainder decomposition the source uses. -/
def monthIdx (t : Int) : Int :=
  12 * Int.fdiv t 100 + Int.tmod t 100

theorem modal_foldl_pos (intervals : List Int) :
    ∀ (ks : List Int) (acc : Int × Nat), 1 ≤ acc.1 → (∀ k ∈ ks, 1 ≤ k) →
      1 ≤ (ks.foldl (fun (acc : Int × Nat) k =>
        let c := intervals.count k
        if acc.2 < c then (k, c) else acc) acc).1 := by
  intro ks
  induction ks with
  | nil => intro acc h _; exact h
  | cons k ks ih =>
    intro acc h hk
    simp only [List.foldl_cons]
    apply ih
    · dsimp only
      split
      · exact hk k (List.mem_cons_self _ _)
      · exact h
    · intro j hj
      exact hk j (List.mem_cons_of_mem _ hj)

theorem modalInterval_pos (intervals : List Int) (hpos : ∀ x ∈ intervals, 0 < x) :
    1 ≤ modalInterval intervals := by
  unfold modalInterval
  split
  · exact le_refl 1
  · exact modal_foldl_pos intervals _ (1, 0) (le_refl 1) fun k hk => by
      have h1 : k ∈ intervals.dedup := (List.mergeSort_perm _ _).mem_iff.mp hk
      exact hpos k (List.mem_dedup.mp h1)

theorem detectTimeInterval_pos (data : List Point) : 1 ≤ detectTimeInterval data := by
  unfold detectTimeInterval
  split
  · exact le_refl 1
  · exact modalInterval_pos _ fun x hx => by
      simp only [consecDeltas, List.mem_filter] at hx
      exact of_decide_eq_true hx.2

theorem nextPT_year (lt ti : Int) (tf : String) (htf : tf ≠ "yearmonth") (i : Nat) :
    nextPredictionTime lt ti tf i = lt + ti * ((i : Int) + 1) := by
  simp [nextPredictionTime, htf]

theorem nextPT_ym_decomp (lt ti : Int) (i : Nat) (h0 : 0 ≤ lt)
    (hm1 : 1 ≤ Int.tmod lt 100) (hm2 : Int.tmod lt 100 ≤ 12) (hti : 1 ≤ ti) :
    ∃ y m : Int, nextPredictionTime lt ti "yearmonth" i = 100 * y + m ∧
      0 ≤ y ∧ 1 ≤ m ∧ m ≤ 12 ∧ 12 * y + m = monthIdx lt + ti * ((i : Int) + 1) := by
  have hyear : 0 ≤ Int.fdiv lt 100 := Int.fdiv_nonneg h0 (by norm_num)
  have hq : 1 ≤ ti * ((i : Int) + 1) := by
    have hi : (0 : Int) ≤ (i : Int) := Int.ofNat_nonneg i
    nlinarith
  have hmi : monthIdx lt = 12 * Int.fdiv lt 100 + Int.tmod lt 100 := rfl
  simp only [nextPredictionTime, if_true]
  by_cases hc : 12 < Int.tmod lt 100 + ti * ((i : Int) + 1)
  · rw [if_pos hc]
    have hnn : 0 ≤ Int.tmod lt 100 + ti * ((i : Int) + 1) - 1 := by omega
    have hfd : Int.fdiv (Int.tmod lt 100 + ti * ((i : Int) + 1) - 1) 12 =
        (Int.tmod lt 100 + ti * ((i : Int) + 1) - 1) / 12 :=
      Int.fdiv_eq_ediv _ (by norm_num)
    have htm : Int.tmod (Int.tmod lt 100 + ti * ((i : Int) + 1) - 1) 12 =
        (Int.tmod lt 100 + ti * ((i : Int) + 1) - 1) % 12 :=
      Int.tmod_eq_emod hnn (by norm_num)
    refine ⟨Int.fdiv lt 100 + Int.fdiv (Int.tmod lt 100 + ti * ((i : Int) + 1) - 1) 12,
      Int.tmod (Int.tmod lt 100 + ti * ((i : Int) + 1) - 1) 12 + 1, by ring, ?_, ?_, ?_, ?_⟩
    · rw [hfd]
      omega
    · rw [htm]
      omega
    · rw [htm]
      omega
    · rw [hfd, htm, hmi]
      omega
  · rw [if_neg hc]
    exact ⟨Int.fdiv lt 100, Int.tmod lt 100 + ti * ((i : Int) + 1), by ring, hyear,
      by omega, by omega, by rw [hmi]; ring⟩

theorem monthIdx_encode (y m : Int) (hy : 0 ≤ y) (hm1 : 1 ≤ m) (hm2 : m ≤ 12) :
    monthIdx (100 * y + m) = 12 * y + m := by
  have h0 : 0 ≤ 100 * y + m := by omega
  unfold monthIdx
  rw [Int.fdiv_eq_ediv _ (by norm_num : (0 : Int) ≤ 100),
    Int.tmod_eq_emod h0 (by norm_num : (0 : Int) ≤ 100)]
  omega

theorem ym_encode_lt (y1 m1 y2 m2 : Int) (hy1 : 0 ≤ y1) (h11 : 1 ≤ m1) (h12 : m1 ≤ 12)
    (hy2 : 0 ≤ y2) (h21 : 1 ≤ m2) (h22 : m2 ≤ 12) (h : 12 * y1 + m1 < 12 * y2 + m2) :
    100 * y1 + m1 < 100 * y2 + m2 := by
  omega

theorem chain'_range_map {R : Int → Int → Prop} (f : Nat → Int) (k : Nat)
    (h : ∀ i, i + 1 < k → R (f i) (f (i + 1))) :
    List.Chain' R ((List.range k).map f) := by
  rw [List.chain'_iff_get]
  intro i hi
  simp only [List.length_map, List.length_range] at hi
  simp only [List.get_eq_getElem, List.getElem_map, List.getElem_range]
  exact h i (by omega)

/-- C2. The detected interval is always at least 1, and every successful
orchestrator call returns exactly `periods` predictions whose times are
strictly increasing with each consecutive pair separated by the interval:
by raw difference in year format, and by month index — the explicit
month-to-year carry — in year-month format (given a well-formed last
historical time). -/
theorem C2_prediction_count_and_times :
    (∀ data : List Point, 1 ≤ detectTimeInterval data) ∧
    (∀ (data : List Point) (periods ti : Int) (model tf : String) (mp : ModelParams)
        (res : PredictionResult),
        generatePrediction data periods model ti tf mp = .ok res → 1 ≤ ti →
        (res.predictions.length : Int) = periods ∧
        (tf ≠ "yearmonth" →
          List.Chain' (fun a b => a < b ∧ b - a = ti) (res.predictions.map OutPoint.time)) ∧
        (tf = "yearmonth" →
          0 ≤ (data.getD (data.length - 1) ⟨0, 0⟩).time →
          1 ≤ Int.tmod (data.getD (data.length - 1) ⟨0, 0⟩).time 100 →
          Int.tmod (data.getD (data.length - 1) ⟨0, 0⟩).time 100 ≤ 12 →
          List.Chain' (fun a b => a < b ∧ monthIdx b - monthIdx a = ti)
            (res.predictions.map OutPoint.time))) := by
  refine ⟨detectTimeInterval_pos, ?_⟩
  intro data periods ti model tf mp res h hti
  simp only [generatePrediction] at h
  split at h
  · injection h
  · split at h
    · injection h
    · rename_i hlen hper
      cases hd : dispatchModel data periods model mp with
      | error e => rw [hd] at h; injection h
      | ok l =>
        rw [hd] at h
        injection h with h
        subst h
        have hlenl := dispatchModel_length data periods model mp l hd
        have hmap : ∀ tf1 : String,
            (buildPreds ((List.range periods.toNat).map fun i =>
              nextPredictionTime ((data.getD (data.length - 1) ⟨0, 0⟩).time) ti tf1 i) l 0).map
                OutPoint.time =
              (List.range periods.toNat).map fun i =>
                nextPredictionTime ((data.getD (data.length - 1) ⟨0, 0⟩).time) ti tf1 i := by
          intro tf1
          rw [buildPreds_map_time _ l 0 (by simp [hlenl])]
          simp [hlenl]
        refine ⟨?_, ?_, ?_⟩
        · dsimp only
          rw [buildPreds_length, hlenl]
          omega
        · intro htf
          dsimp only
          rw [hmap tf]
          apply chain'_range_map
          intro i hi
          rw [nextPT_year _ ti tf htf i, nextPT_year _ ti tf htf (i + 1)]
          have hr : ti * (((i + 1 : Nat) : Int) + 1) = ti * ((i : Int) + 1) + ti := by
            push_cast
            ring
          constructor
          · omega
          · omega
        · intro htf h0 hm1 hm2
          subst htf
          dsimp only
          rw [hmap "yearmonth"]
          apply chain'_range_map
          intro i hi
          obtain ⟨y1, m1, he1, hy1, h11, h12, hs1⟩ :=
            nextPT_ym_decomp _ ti i h0 hm1 hm2 hti
          obtain ⟨y2, m2, he2, hy2, h21, h22, hs2⟩ :=
            nextPT_ym_decomp _ ti (i + 1) h0 hm1 hm2 hti
          rw [he1, he2]
          have hgap : (12 * y2 + m2) - (12 * y1 + m1) = ti := by
            rw [hs1, hs2]
            push_cast
            ring
          refine ⟨ym_encode_lt y1 m1 y2 m2 hy1 h11 h12 hy2 h21 h22 (by omega), ?_⟩
          rw [monthIdx_encode y2 m2 hy2 h21 h22, monthIdx_encode y1 m1 hy1 h11 h12]
          omega

/-- C2 witness: a concrete linear run returns exactly one prediction whose
time chain is trivially increasing with gap 1, and the detected interval of
a concrete series is positive. -/
theorem C2_prediction_count_and_times_witness :
    1 ≤ detectTimeInterval [⟨2020, 1⟩, ⟨2021, 2⟩] ∧
    (linAResult.predictions.length : Int) = 1 ∧
    List.Chain' (fun a b => a < b ∧ b - a = 1) (linAResult.predictions.map OutPoint.time) :=
  ⟨C2_prediction_count_and_times.1 [⟨2020, 1⟩, ⟨2021, 2⟩],
   (C2_prediction_count_and_times.2 [⟨1, 1⟩, ⟨2, 2⟩, ⟨3, 3⟩] 1 1 "linear" "year" {}
      linAResult generatePrediction_linearA (by decide)).1,
   (C2_prediction_count_and_times.2 [⟨1, 1⟩, ⟨2, 2⟩, ⟨3, 3⟩] 1 1 "linear" "year" {}
      linAResult generatePrediction_linearA (by decide)).2.1 (by decide)⟩

/-!
## NaN world: the exponential-smoothing fallback (C5)

JavaScript `NaN` is modelled as `none : Option ℚ`; arithmetic propagates it,
`isNaN` is `= none`, and JS truthiness (`||`) treats both `NaN` and `0` as
falsy.  This section re-embeds `singleExponentialSmoothing` of
`exponentialSmoothing.js` with its guards intact.
-/

/-- One smoothing step over NaN-tracking values:
`α·v + (1-α)·prev`, `NaN` if either operand is `NaN`. -/
def nanStep (a : ℚ) (v prev : Option ℚ) : Option ℚ :=
  match v, prev with
  | some vv, some pp => some (a * vv + (1 - a) * pp)
  | _, _ => none

/-- Smoothing recurrence tail over NaN-tracking values. -/
def smoothGoN (a : ℚ) : Option ℚ → List (Option ℚ) → List (Option ℚ)
  | _, [] => []
  | prev, v :: rest => nanStep a v prev :: smoothGoN a (nanStep a v prev) rest

/-- Smoothed list seeded with the first value (`smoothed = [values[0]]`). -/
def smoothListN (a : ℚ) : List (Option ℚ) → List (Option ℚ)
  | [] => []
  | v :: rest => v :: smoothGoN a v rest

/-- NaN-propagating addition. -/
def vadd : Option ℚ → Option ℚ → Option ℚ
  | some a, some b => some (a + b)
  | _, _ => none

/-- NaN-propagating subtraction. -/
def vsub : Option ℚ → Option ℚ → Option ℚ
  | some a, some b => some (a - b)
  | _, _ => none

/-- NaN-propagating multiplication. -/
def vmul : Option ℚ → Option ℚ → Option ℚ
  | some a, some b => some (a * b)
  | _, _ => none

/-- Division of a NaN-tracking value by a plain count. -/
def vdivC (x : Option ℚ) (c : ℚ) : Option ℚ :=
  x.map (· / c)

/-- MSE of one `α` candidate over NaN-tracking values (`optimizeAlpha` loop
body): a `NaN` anywhere in the test window poisons the score. -/
def optMseAlphaN (alpha : ℚ) (values : List (Option ℚ)) : Option ℚ :=
  let smoothed := smoothListN alpha values
  let testStart := values.length * 7 / 10
  vdivC
    (((List.range' testStart (values.length - testStart)).map fun i =>
        vmul (vsub (values.getD i none) (smoothed.getD (i - 1) none))
          (vsub (values.getD i none) (smoothed.getD (i - 1) none))).foldl vadd (some 0))
    ((values.length - testStart : Nat) : ℚ)

/-- JS `mse < bestMSE` where `bestMSE` starts at `Infinity` (`none` on the
right) and `mse` may be `NaN` (`none` on the left, never smaller). -/
def mseWins (mse best : Option ℚ) : Bool :=
  match mse with
  | none => false
  | some m =>
    match best with
    | none => true
    | some b => decide (m < b)

/-- Grid search for `α` over NaN-tracking values (`optimizeAlpha`): a
`NaN` score never replaces the best, and the final validity check falls
back to 0.3. -/
def optimizeAlphaN (values : List (Option ℚ)) : ℚ :=
  let best := [(0.1 : ℚ), 0.2, 0.3, 0.4, 0.5, 0.6, 0.7, 0.8, 0.9].foldl
    (fun (acc : ℚ × Option ℚ) c =>
      let mse := optMseAlphaN c values
      if mseWins mse acc.2 then (c, mse) else acc)
    (0.3, none)
  if best.1 ≤ 0 ∨ 1 ≤ best.1 then 0.3 else best.1

/-- A historical point whose value may be `NaN`. -/
structure NPoint where
  time : Int
  value : Option ℚ
  deriving DecidableEq, Repr

/-- Effective `α` of `singleExponentialSmoothing`: `null`, nonpositive or
`≥ 1` parameters are replaced by the optimizer's choice. -/
def effAlphaN (data : List NPoint) (alpha : Option ℚ) : ℚ :=
  match alpha with
  | none => optimizeAlphaN (data.map NPoint.value)
  | some a0 => if a0 ≤ 0 ∨ 1 ≤ a0 then optimizeAlphaN (data.map NPoint.value) else a0

/-- Final smoothed level `smoothed[n-1]` of the single-smoothing run. -/
def finalSmoothedLevel (values : List (Option ℚ)) (a : ℚ) : Option ℚ :=
  let smoothed := smoothListN a values
  smoothed.getD (smoothed.length - 1) none

/-- JS `x || y` on numbers: `NaN` and `0` are falsy. -/
def jsOrV (x y : Option ℚ) : Option ℚ :=
  if x = none ∨ x = some 0 then y else x

/-- Single exponential smoothing with the NaN guards of the source: when
the final smoothed level is `NaN`, the forecast repeats
`values[n-1] || (n > 1 ? values[n-2] : 0)`, with a final `isNaN ? 0`
rewrite; otherwise it repeats the last smoothed value. -/
def singleExponentialSmoothingN (data : List NPoint) (periods : Int) (alpha : Option ℚ) :
    Except JsError (List (Option ℚ)) :=
  if data.length < 3 then .error (.insufficientData 3)
  else
    let values := data.map NPoint.value
    let a := effAlphaN data alpha
    match finalSmoothedLevel values a with
    | none =>
      let fallbackValue := jsOrV (values.getD (values.length - 1) none)
        (if 1 < values.length then values.getD (values.length - 2) none else some 0)
      .ok (List.replicate periods.toNat
        (match fallbackValue with
         | none => some 0
         | some x => some x))
    | some s => .ok (List.replicate periods.toNat (some s))

/-- The orchestrator's `validPredictions` sanitization
(`predictionService.js` lines 228-233): `null`/`undefined`/`NaN` become 0. -/
def sanitizeNaN (l : List (Option ℚ)) : List (Option ℚ) :=
  l.map fun v =>
    match v with
    | none => some 0
    | some x => some x

/-- Modelled from the spec: the "last valid historical value" — the last
non-`NaN` entry of the series — used only to compare the code's fallback
against the claim's wording. -/
def lastValidValue (data : List NPoint) : Option ℚ :=
  ((data.map NPoint.value).filterMap id).getLast?

/-- C5 counterexample: the series `[5, NaN, NaN]` produces a `NaN` final
smoothed level, but the forecast is `0` repeated — not the last valid
historical value `5` — because the JS fallback only looks two entries
back. -/
theorem C5_nan_fallback_counterexample :
    finalSmoothedLevel [some 5, none, none] (1 / 2) = none ∧
    singleExponentialSmoothingN [⟨2020, some 5⟩, ⟨2021, none⟩, ⟨2022, none⟩] 2 (some (1 / 2)) =
      .ok [some 0, some 0] ∧
    lastValidValue [⟨2020, some 5⟩, ⟨2021, none⟩, ⟨2022, none⟩] = some 5 ∧
    [some (0 : ℚ), some 0] ≠ List.replicate 2 (some (5 : ℚ)) := by
  refine ⟨rfl, ?_, rfl, by simp⟩
  norm_num [singleExponentialSmoothingN, effAlphaN, finalSmoothedLevel, smoothListN,
    smoothGoN, nanStep, jsOrV, show (2 : Int).toNat = 2 from rfl, List.replicate]

/-- C5 (amended). A successful single-smoothing run never outputs `NaN`;
when the final smoothed level is `NaN` and the last historical value is a
valid nonzero number, the forecast is that value repeated across the whole
horizon (when it is `NaN` or `0` the code falls back to the second-to-last
value, then to 0, as the counterexample shows); and the orchestrator's
sanitization step never lets a `NaN` into the payload. -/
theorem C5_nan_fallback :
    (∀ (data : List NPoint) (periods : Int) (alpha : Option ℚ) (l : List (Option ℚ)),
        singleExponentialSmoothingN data periods alpha = .ok l → ∀ v ∈ l, v ≠ none) ∧
    (∀ (data : List NPoint) (periods : Int) (alpha : Option ℚ) (x : ℚ),
        3 ≤ data.length →
        finalSmoothedLevel (data.map NPoint.value) (effAlphaN data alpha) = none →
        (data.map NPoint.value).getD (data.length - 1) none = some x →
        x ≠ 0 →
        singleExponentialSmoothingN data periods alpha =
          .ok (List.replicate periods.toNat (some x))) ∧
    (∀ (l : List (Option ℚ)) (v : Option ℚ), v ∈ sanitizeNaN l → v ≠ none) := by
  refine ⟨?_, ?_, ?_⟩
  · intro data periods alpha l h v hv
    simp only [singleExponentialSmoothingN] at h
    split at h
    · injection h
    · split at h
      · injection h with h
        subst h
        have := List.eq_of_mem_replicate hv
        subst this
        split <;> simp
      · injection h with h
        subst h
        have := List.eq_of_mem_replicate hv
        subst this
        simp
  · intro data periods alpha x h3 hfin hlast hx
    have hl : ¬ data.length < 3 := by omega
    simp only [singleExponentialSmoothingN, if_neg hl]
    rw [hfin]
    have hlen : (data.map NPoint.value).length = data.length := by simp
    rw [hlen, hlast]
    have hor : jsOrV (some x)
        (if 1 < data.length then (data.map NPoint.value).getD (data.length - 2) none
         else some 0) =
        some x := by
      unfold jsOrV
      rw [if_neg]
      simp [hx]
    rw [hor]
  · intro l v hv
    simp only [sanitizeNaN, List.mem_map] at hv
    rcases hv with ⟨w, _, rfl⟩
    cases w <;> simp

/-- C5 witness: a clean 3-point run outputs only real numbers; a run whose
first value is `NaN` (final level `NaN`, last value 3) forecasts 3
repeated; the sanitizer turns a `NaN` entry into 0. -/
theorem C5_nan_fallback_witness :
    (∀ v ∈ [some ((9 : ℚ) / 4)], v ≠ none) ∧
    singleExponentialSmoothingN [⟨0, none⟩, ⟨1, some 7⟩, ⟨2, some 3⟩] 2 (some (1 / 2)) =
      .ok (List.replicate ((2 : Int)).toNat (some 3)) ∧
    (some (0 : ℚ) ≠ none) := by
  refine ⟨?_, ?_, ?_⟩
  · apply C5_nan_fallback.1 [⟨0, some 1⟩, ⟨1, some 2⟩, ⟨2, some 3⟩] 1 (some (1 / 2))
    norm_num [singleExponentialSmoothingN, effAlphaN, finalSmoothedLevel, smoothListN,
      smoothGoN, nanStep, show (1 : Int).toNat = 1 from rfl, List.replicate]
  · apply C5_nan_fallback.2.1 [⟨0, none⟩, ⟨1, some 7⟩, ⟨2, some 3⟩] 2 (some (1 / 2)) 3
      (by decide) ?_ (by rfl) (by norm_num)
    have ha : effAlphaN [⟨0, none⟩, ⟨1, some 7⟩, ⟨2, some 3⟩] (some (1 / 2)) = 1 / 2 := by
      norm_num [effAlphaN]
    rw [ha]
    rfl
  · exact C5_nan_fallback.2.2 [none] (some 0) (by simp [sanitizeNaN])

end Szhb
